import Mathlib

/-!
Verification of the deployment-orchestration core of `shipyard-action`
(dependency resolution, health gate, rollback, external verification),
shallowly embedded from the Go sources under `pkg/deployment`, `pkg/config`,
`pkg/health` and `pkg/end`.

Machine integers are modelled as `Nat` (durations in nanoseconds, as in Go's
`time.Duration`); Go maps keyed by strings are modelled as association lists
with the map's zero-value default on a missing key; fallible calls return
`Except`; container-runtime and network I/O (the collaborator interfaces) are
modelled as explicit outcome oracles passed to the embedded functions.
-/

namespace Shipyard

/-! ## Dependency resolver (`pkg/deployment/dependencies.go`) -/

/-- The mutable state of the depth-first traversal inside
`resolveDependencyOrder`: the `visited` and `temp` marker maps (modelled as
the lists of names currently marked `true`) and the accumulated completion
`order`. -/
structure DfsSt where
  visited : List String
  temp : List String
  order : List String
deriving Repr, DecidableEq

/-- Lookup in the `dependencies` Go map; a missing key yields the zero value
`nil`, i.e. the empty list. -/
def lookupDeps (deps : List (String × List String)) (n : String) : List String :=
  match deps.find? (fun p => p.1 == n) with
  | some p => p.2
  | none => []

/-- The message built by `fmt.Errorf("cycle detected in dependencies involving %s", name)`;
the error value itself is modelled as the offending name. -/
def cycleErrorMessage (n : String) : String :=
  "cycle detected in dependencies involving " ++ n

/-- The `for _, dep := range dependencies[name]` loop inside `visit`,
abstracted over the recursive call (so that `visit` is structurally
recursive on its fuel). -/
def visitListAux (vf : String → DfsSt → Option (Except String DfsSt)) :
    List String → DfsSt → Option (Except String DfsSt)
  | [], s => some (Except.ok s)
  | d :: ds, s =>
    match vf d s with
    | none => none
    | some (Except.error e) => some (Except.error e)
    | some (Except.ok s2) => visitListAux vf ds s2

/-- The inner `visit` closure of `resolveDependencyOrder`.  `fuel` is an
artifact of the embedding (Go recursion needs no fuel); all statements are
made with provably sufficient fuel.  `none` means fuel ran out. -/
def visit (deps : List (String × List String)) :
    Nat → String → DfsSt → Option (Except String DfsSt)
  | 0, _, _ => none
  | fuel+1, name, s =>
    if s.temp.contains name then some (Except.error name)
    else if s.visited.contains name then some (Except.ok s)
    else
      match visitListAux (visit deps fuel) (lookupDeps deps name)
          ⟨s.visited, name :: s.temp, s.order⟩ with
      | none => none
      | some (Except.error e) => some (Except.error e)
      | some (Except.ok s2) =>
          some (Except.ok ⟨name :: s2.visited, s2.temp.erase name, s2.order ++ [name]⟩)

/-- The dependency loop at a fixed fuel. -/
def visitList (deps : List (String × List String)) (fuel : Nat) :
    List String → DfsSt → Option (Except String DfsSt) :=
  visitListAux (visit deps fuel)

/-- The `for _, name := range names` loop of `resolveDependencyOrder`. -/
def visitAll (deps : List (String × List String)) :
    Nat → List String → DfsSt → Option (Except String DfsSt)
  | _, [], s => some (Except.ok s)
  | fuel, n :: ns, s =>
    if s.visited.contains n then visitAll deps fuel ns s
    else
      match visit deps fuel n s with
      | none => none
      | some (Except.error e) => some (Except.error e)
      | some (Except.ok s2) => visitAll deps fuel ns s2

/-- All names a run of the traversal can ever touch: the input names plus
every name occurring in some dependency list. -/
def depUniverse (names : List String) (deps : List (String × List String)) :
    List String :=
  (names ++ (deps.map Prod.snd).flatten).dedup

/-- `resolveDependencyOrder` (dependencies.go, lines 67–121): DFS topological
sort over string names, then an in-place reversal of the completion order.
The fuel is chosen large enough to be provably sufficient. -/
def resolveDependencyOrder (names : List String)
    (deps : List (String × List String)) : Option (Except String (List String)) :=
  match visitAll deps (depUniverse names deps).length.succ names ⟨[], [], []⟩ with
  | none => none
  | some (Except.error e) => some (Except.error e)
  | some (Except.ok s) => some (Except.ok s.order.reverse)

/-! ### Invariants of the traversal -/

/-- Every node of `order` has all of its dependencies strictly earlier in
`order`.  (This is the sense in which the *completion* order of the DFS puts
dependencies first; the final reversal in `resolveDependencyOrder` destroys
it.) -/
def GoodOrder (deps : List (String × List String)) (order : List String) : Prop :=
  ∀ x ∈ order, ∀ d ∈ lookupDeps deps x,
    d ∈ order ∧ order.indexOf d < order.indexOf x

/-- The state invariant of the traversal: `visited` is exactly the set of
completed nodes (the reverse of `order`), the completion order has no
duplicates, and dependencies complete before their dependents. -/
def InvSt (deps : List (String × List String)) (s : DfsSt) : Prop :=
  s.visited = s.order.reverse ∧ s.order.Nodup ∧ GoodOrder deps s.order

/-- What a successful `visit` call guarantees structurally. -/
def VisitOkP (n : String) (s s' : DfsSt) : Prop :=
  s'.temp = s.temp ∧ s.visited ⊆ s'.visited ∧ n ∈ s'.visited ∧
    (∃ ext, s'.order = s.order ++ ext) ∧
    (s.visited = s.order.reverse → s'.visited = s'.order.reverse)

/-- What a successful `visitList` call guarantees structurally. -/
def VisitListOkP (ds : List String) (s s' : DfsSt) : Prop :=
  s'.temp = s.temp ∧ s.visited ⊆ s'.visited ∧ (∀ d ∈ ds, d ∈ s'.visited) ∧
    (∃ ext, s'.order = s.order ++ ext) ∧
    (s.visited = s.order.reverse → s'.visited = s'.order.reverse)

theorem visitListOkP_of_visitOkP {deps : List (String × List String)} {f : Nat}
    (hv : ∀ {n : String} {s s' : DfsSt},
      visit deps f n s = some (Except.ok s') → VisitOkP n s s') :
    ∀ {ds : List String} {s s' : DfsSt},
      visitList deps f ds s = some (Except.ok s') → VisitListOkP ds s s' := by
  intro ds
  induction ds with
  | nil =>
    intro s s' h
    simp only [visitList, visitListAux, Option.some.injEq, Except.ok.injEq] at h
    subst h
    exact ⟨rfl, fun _ hx => hx, by simp, ⟨[], by simp⟩, fun h => h⟩
  | cons d ds ih =>
    intro s s' h
    simp only [visitList, visitListAux] at h
    cases heq : visit deps f d s with
    | none => rw [heq] at h; exact absurd h (by simp)
    | some r =>
      cases r with
      | error e => rw [heq] at h; exact absurd h (by simp)
      | ok s2 =>
        rw [heq] at h
        have h' : visitList deps f ds s2 = some (Except.ok s') := h
        obtain ⟨ht, hsub, hmem, ⟨ext1, hord1⟩, hcorr⟩ := hv heq
        obtain ⟨ht', hsub', hmem', ⟨ext2, hord2⟩, hcorr'⟩ := ih h'
        refine ⟨ht'.trans ht, fun x hx => hsub' (hsub hx), ?_,
          ⟨ext1 ++ ext2, by rw [hord2, hord1, List.append_assoc]⟩,
          fun hc => hcorr' (hcorr hc)⟩
        intro x hx
        rcases List.mem_cons.mp hx with rfl | hx
        · exact hsub' hmem
        · exact hmem' x hx

theorem visit_ok_struct {deps : List (String × List String)} :
    ∀ {f : Nat} {n : String} {s s' : DfsSt},
      visit deps f n s = some (Except.ok s') → VisitOkP n s s' := by
  intro f
  induction f with
  | zero => intro n s s' h; simp [visit] at h
  | succ f ih =>
    intro n s s' h
    rw [visit] at h
    by_cases h1 : s.temp.contains n
    · rw [if_pos h1] at h; exact absurd h (by simp)
    · rw [if_neg h1] at h
      by_cases h2 : s.visited.contains n
      · rw [if_pos h2] at h
        simp only [Option.some.injEq, Except.ok.injEq] at h
        subst h
        exact ⟨rfl, fun _ hx => hx, by simpa using h2, ⟨[], by simp⟩, fun hc => hc⟩
      · rw [if_neg h2] at h
        cases heq : visitListAux (visit deps f) (lookupDeps deps n)
            ⟨s.visited, n :: s.temp, s.order⟩ with
        | none => rw [heq] at h; exact absurd h (by simp)
        | some r =>
          cases r with
          | error e => rw [heq] at h; exact absurd h (by simp)
          | ok s2 =>
            rw [heq] at h
            simp only [Option.some.injEq, Except.ok.injEq] at h
            obtain ⟨ht, hsub, _hmem, ⟨ext, hord⟩, hcorr⟩ :=
              visitListOkP_of_visitOkP (fun hc => ih hc) heq
            subst h
            refine ⟨?_, fun x hx => List.mem_cons_of_mem _ (hsub hx),
              List.mem_cons_self _ _, ⟨ext ++ [n], by simp [hord]⟩, ?_⟩
            · simp only [ht]; exact List.erase_cons_head n s.temp
            · intro hc
              have h2' := hcorr hc
              simp [h2', List.reverse_append]

theorem visitList_ok_struct {deps : List (String × List String)} {f : Nat}
    {ds : List String} {s s' : DfsSt}
    (h : visitList deps f ds s = some (Except.ok s')) : VisitListOkP ds s s' :=
  visitListOkP_of_visitOkP (fun hc => visit_ok_struct hc) h

/-- One successful step preserves the state invariant, and every newly
completed node was not grey (`temp`-marked) at the start of the step. -/
def InvStep (deps : List (String × List String)) (s s' : DfsSt) : Prop :=
  InvSt deps s → InvSt deps s' ∧ ∀ x ∈ s'.visited, x ∉ s.visited → x ∉ s.temp

theorem invStep_list {deps : List (String × List String)} {f : Nat}
    (hv : ∀ {n : String} {s s' : DfsSt},
      visit deps f n s = some (Except.ok s') → InvStep deps s s') :
    ∀ {ds : List String} {s s' : DfsSt},
      visitList deps f ds s = some (Except.ok s') → InvStep deps s s' := by
  intro ds
  induction ds with
  | nil =>
    intro s s' h
    simp only [visitList, visitListAux, Option.some.injEq, Except.ok.injEq] at h
    subst h
    exact fun hInv => ⟨hInv, fun x hx hx2 => absurd hx hx2⟩
  | cons d ds ih =>
    intro s s' h
    simp only [visitList, visitListAux] at h
    cases heq : visit deps f d s with
    | none => rw [heq] at h; exact absurd h (by simp)
    | some r =>
      cases r with
      | error e => rw [heq] at h; exact absurd h (by simp)
      | ok s2 =>
        rw [heq] at h
        have h' : visitList deps f ds s2 = some (Except.ok s') := h
        intro hInv
        obtain ⟨hInv2, hdisj⟩ := hv heq hInv
        obtain ⟨hInv', hdisj'⟩ := ih h' hInv2
        have hteq : s2.temp = s.temp := (visit_ok_struct heq).1
        refine ⟨hInv', fun x hx hx2 => ?_⟩
        by_cases hx3 : x ∈ s2.visited
        · exact hdisj x hx3 hx2
        · have := hdisj' x hx hx3
          rwa [hteq] at this

theorem visit_invStep {deps : List (String × List String)} :
    ∀ {f : Nat} {n : String} {s s' : DfsSt},
      visit deps f n s = some (Except.ok s') → InvStep deps s s' := by
  intro f
  induction f with
  | zero => intro n s s' h; simp [visit] at h
  | succ f ih =>
    intro n s s' h
    rw [visit] at h
    by_cases h1 : s.temp.contains n
    · rw [if_pos h1] at h; exact absurd h (by simp)
    · rw [if_neg h1] at h
      by_cases h2 : s.visited.contains n
      · rw [if_pos h2] at h
        simp only [Option.some.injEq, Except.ok.injEq] at h
        subst h
        exact fun hInv => ⟨hInv, fun x hx hx2 => absurd hx hx2⟩
      · rw [if_neg h2] at h
        cases heq : visitListAux (visit deps f) (lookupDeps deps n)
            ⟨s.visited, n :: s.temp, s.order⟩ with
        | none => rw [heq] at h; exact absurd h (by simp)
        | some r =>
          cases r with
          | error e => rw [heq] at h; exact absurd h (by simp)
          | ok s2 =>
            rw [heq] at h
            simp only [Option.some.injEq, Except.ok.injEq] at h
            subst h
            intro hInv
            have hnv : n ∉ s.visited := by simpa using h2
            have hnt : n ∉ s.temp := by simpa using h1
            obtain ⟨hInv2, hdisj⟩ := invStep_list (fun hc => ih hc) heq hInv
            have hmemds : ∀ d ∈ lookupDeps deps n, d ∈ s2.visited :=
              (visitList_ok_struct heq).2.2.1
            obtain ⟨hcorr2, hnd2, hgood2⟩ := hInv2
            have hnmem : n ∉ s2.order := by
              intro hmem
              have : n ∈ s2.visited := by
                rw [hcorr2]; exact List.mem_reverse.mpr hmem
              rcases Decidable.em (n ∈ s.visited) with hc | hc
              · exact hnv hc
              · exact (hdisj n this hc) (List.mem_cons_self n s.temp)
            have hmem_order : ∀ d ∈ lookupDeps deps n, d ∈ s2.order := by
              intro d hd
              have := hmemds d hd
              rw [hcorr2] at this
              exact List.mem_reverse.mp this
            refine ⟨⟨?_, ?_, ?_⟩, ?_⟩
            · show n :: s2.visited = (s2.order ++ [n]).reverse
              rw [hcorr2]; simp [List.reverse_append]
            · show (s2.order ++ [n]).Nodup
              rw [List.nodup_append]
              refine ⟨hnd2, List.nodup_singleton n, fun a ha hb => ?_⟩
              simp only [List.mem_singleton] at hb
              subst hb
              exact hnmem ha
            · show GoodOrder deps (s2.order ++ [n])
              intro x hx d hd
              rcases List.mem_append.mp hx with hx | hx
              · obtain ⟨hdmem, hdlt⟩ := hgood2 x hx d hd
                refine ⟨List.mem_append_left _ hdmem, ?_⟩
                rw [List.indexOf_append_of_mem hdmem, List.indexOf_append_of_mem hx]
                exact hdlt
              · simp only [List.mem_singleton] at hx
                subst hx
                have hdmem := hmem_order d hd
                refine ⟨List.mem_append_left _ hdmem, ?_⟩
                rw [List.indexOf_append_of_mem hdmem,
                  List.indexOf_append_of_not_mem hnmem]
                calc s2.order.indexOf d < s2.order.length :=
                      List.indexOf_lt_length.mpr hdmem
                  _ ≤ s2.order.length + List.indexOf x [x] := Nat.le_add_right _ _
            · intro x hx hx2
              rcases List.mem_cons.mp hx with rfl | hx
              · exact hnt
              · have := hdisj x hx hx2
                intro hc
                exact this (List.mem_cons_of_mem _ hc)

theorem visitList_invStep {deps : List (String × List String)} {f : Nat}
    {ds : List String} {s s' : DfsSt}
    (h : visitList deps f ds s = some (Except.ok s')) : InvStep deps s s' :=
  invStep_list (fun hc => visit_invStep hc) h

/-! ### Sufficiency of the chosen fuel -/

/-- Number of potentially visitable nodes that are not yet grey. -/
def tempMeasure (U : List String) (s : DfsSt) : Nat :=
  (U.toFinset \ s.temp.toFinset).card

theorem visitList_fuel_of {deps : List (String × List String)} {U : List String}
    {f : Nat}
    (hv : ∀ {n : String} {s : DfsSt},
      n ∈ U → tempMeasure U s < f → visit deps f n s ≠ none) :
    ∀ {ds : List String} {s : DfsSt},
      (∀ d ∈ ds, d ∈ U) → tempMeasure U s < f → visitList deps f ds s ≠ none := by
  intro ds
  induction ds with
  | nil => intro s _ _; simp [visitList, visitListAux]
  | cons d ds ih =>
    intro s hds hm
    simp only [visitList, visitListAux]
    cases heq : visit deps f d s with
    | none => exact absurd heq (hv (hds d (List.mem_cons_self d ds)) hm)
    | some r =>
      cases r with
      | error e => simp
      | ok s2 =>
        have hteq : s2.temp = s.temp := (visit_ok_struct heq).1
        have hm2 : tempMeasure U s2 < f := by
          unfold tempMeasure; rw [hteq]; exact hm
        exact ih (fun x hx => hds x (List.mem_cons_of_mem _ hx)) hm2

theorem visit_fuel {deps : List (String × List String)} {U : List String}
    (hU : ∀ x, ∀ d ∈ lookupDeps deps x, d ∈ U) :
    ∀ {f : Nat} {n : String} {s : DfsSt},
      n ∈ U → tempMeasure U s < f → visit deps f n s ≠ none := by
  intro f
  induction f with
  | zero => intro n s _ hm; exact absurd hm (by simp)
  | succ f ih =>
    intro n s hn hm
    rw [visit]
    by_cases h1 : s.temp.contains n
    · rw [if_pos h1]; simp
    · rw [if_neg h1]
      by_cases h2 : s.visited.contains n
      · rw [if_pos h2]; simp
      · rw [if_neg h2]
        have hnt : n ∉ s.temp := by simpa using h1
        have hmem : n ∈ U.toFinset \ s.temp.toFinset := by
          rw [Finset.mem_sdiff, List.mem_toFinset, List.mem_toFinset]
          exact ⟨hn, hnt⟩
        have hm1 : tempMeasure U ⟨s.visited, n :: s.temp, s.order⟩ <
            tempMeasure U s := by
          unfold tempMeasure
          simp only [List.toFinset_cons]
          rw [Finset.sdiff_insert]
          exact Finset.card_erase_lt_of_mem hmem
        have hm2 : tempMeasure U ⟨s.visited, n :: s.temp, s.order⟩ < f := by
          have := Nat.lt_of_lt_of_le hm1 (Nat.lt_succ_iff.mp hm)
          exact this
        have hinner := visitList_fuel_of (fun hx hmx => ih hx hmx)
          (fun d hd => hU n d hd) hm2
        cases heq : visitListAux (visit deps f) (lookupDeps deps n)
            ⟨s.visited, n :: s.temp, s.order⟩ with
        | none => exact absurd heq hinner
        | some r => cases r with
          | error e => simp
          | ok s2 => simp

theorem visitAll_fuel {deps : List (String × List String)} {U : List String}
    {f : Nat} (hU : ∀ x, ∀ d ∈ lookupDeps deps x, d ∈ U) :
    ∀ {ns : List String} {s : DfsSt},
      (∀ n ∈ ns, n ∈ U) → tempMeasure U s < f → visitAll deps f ns s ≠ none := by
  intro ns
  induction ns with
  | nil => intro s _ _; simp [visitAll]
  | cons n ns ih =>
    intro s hns hm
    simp only [visitAll]
    by_cases h1 : s.visited.contains n
    · rw [if_pos h1]
      exact ih (fun x hx => hns x (List.mem_cons_of_mem _ hx)) hm
    · rw [if_neg h1]
      cases heq : visit deps f n s with
      | none =>
        exact absurd heq (visit_fuel hU (hns n (List.mem_cons_self n ns)) hm)
      | some r =>
        cases r with
        | error e => simp
        | ok s2 =>
          have hteq : s2.temp = s.temp := (visit_ok_struct heq).1
          have hm2 : tempMeasure U s2 < f := by
            unfold tempMeasure; rw [hteq]; exact hm
          exact ih (fun x hx => hns x (List.mem_cons_of_mem _ hx)) hm2

/-! ### A traversal error always identifies a node lying on a cycle -/

/-- `c` is a (directed) cycle of the dependency graph: consecutive elements
are joined by dependency edges and the last element has an edge back to the
first.  A singleton `[x]` is a self-loop `x ∈ dependencies[x]`. -/
def IsCycleList (deps : List (String × List String)) (c : List String) : Prop :=
  c ≠ [] ∧ List.Chain' (fun a b => b ∈ lookupDeps deps a) c ∧
    ∃ x y, c.getLast? = some x ∧ c.head? = some y ∧ y ∈ lookupDeps deps x

/-- The grey stack is a chain of dependency edges, each entry being a
dependency of the entry pushed just before it. -/
def TempChain (deps : List (String × List String)) (t : List String) : Prop :=
  List.Chain' (fun a b => a ∈ lookupDeps deps b) t

theorem cycle_of_mem_temp {deps : List (String × List String)}
    {t : List String} {n : String} (hmem : n ∈ t) (hchain : TempChain deps t)
    (hcall : ∀ h ∈ t.head?, n ∈ lookupDeps deps h) :
    ∃ c, IsCycleList deps c ∧ n ∈ c := by
  obtain ⟨pre, post, rfl⟩ := List.append_of_mem hmem
  refine ⟨(pre ++ [n]).reverse, ⟨by simp, ?_, ?_⟩, by simp⟩
  · rw [List.chain'_reverse]
    have hpre : (pre ++ [n]) <+: (pre ++ n :: post) :=
      ⟨post, by simp⟩
    exact List.Chain'.prefix hchain hpre
  · cases pre with
    | nil =>
      refine ⟨n, n, ?_, ?_, ?_⟩
      · simp
      · simp
      · exact hcall n (by simp)
    | cons p pre' =>
      refine ⟨p, n, ?_, ?_, ?_⟩
      · rw [List.getLast?_reverse]; simp
      · rw [List.head?_reverse]
        show ((p :: pre') ++ [n]).getLast? = some n
        rw [List.getLast?_append_cons]
        simp
      · exact hcall p (by simp)

theorem visitList_err_of {deps : List (String × List String)} {f : Nat}
    (hv : ∀ {n : String} {s : DfsSt} {e : String},
      visit deps f n s = some (Except.error e) → TempChain deps s.temp →
      (∀ h ∈ s.temp.head?, n ∈ lookupDeps deps h) →
      ∃ c, IsCycleList deps c ∧ e ∈ c) :
    ∀ {ds : List String} {s : DfsSt} {e : String},
      visitList deps f ds s = some (Except.error e) → TempChain deps s.temp →
      (∀ d ∈ ds, ∀ h ∈ s.temp.head?, d ∈ lookupDeps deps h) →
      ∃ c, IsCycleList deps c ∧ e ∈ c := by
  intro ds
  induction ds with
  | nil => intro s e h _ _; simp [visitList, visitListAux] at h
  | cons d ds ih =>
    intro s e h hchain hds
    simp only [visitList, visitListAux] at h
    cases heq : visit deps f d s with
    | none => rw [heq] at h; exact absurd h (by simp)
    | some r =>
      cases r with
      | error e2 =>
        rw [heq] at h
        have he : e2 = e := by simpa using h
        subst he
        exact hv heq hchain (hds d (List.mem_cons_self d ds))
      | ok s2 =>
        rw [heq] at h
        have h' : visitList deps f ds s2 = some (Except.error e) := h
        have hteq : s2.temp = s.temp := (visit_ok_struct heq).1
        refine ih h' (by rwa [TempChain, hteq]) ?_
        rw [hteq]
        exact fun x hx => hds x (List.mem_cons_of_mem _ hx)

theorem visit_err {deps : List (String × List String)} :
    ∀ {f : Nat} {n : String} {s : DfsSt} {e : String},
      visit deps f n s = some (Except.error e) → TempChain deps s.temp →
      (∀ h ∈ s.temp.head?, n ∈ lookupDeps deps h) →
      ∃ c, IsCycleList deps c ∧ e ∈ c := by
  intro f
  induction f with
  | zero => intro n s e h _ _; simp [visit] at h
  | succ f ih =>
    intro n s e h hchain hcall
    rw [visit] at h
    by_cases h1 : s.temp.contains n
    · rw [if_pos h1] at h
      have he : n = e := by simpa using h
      subst he
      exact cycle_of_mem_temp (by simpa using h1) hchain hcall
    · rw [if_neg h1] at h
      by_cases h2 : s.visited.contains n
      · rw [if_pos h2] at h; exact absurd h (by simp)
      · rw [if_neg h2] at h
        cases heq : visitListAux (visit deps f) (lookupDeps deps n)
            ⟨s.visited, n :: s.temp, s.order⟩ with
        | none => rw [heq] at h; exact absurd h (by simp)
        | some r =>
          cases r with
          | error e2 =>
            rw [heq] at h
            have he : e2 = e := by simpa using h
            subst he
            refine visitList_err_of (fun hc hch hca => ih hc hch hca) heq ?_ ?_
            · show List.Chain' _ (n :: s.temp)
              rw [List.chain'_cons']
              exact ⟨hcall, hchain⟩
            · intro d hd h3 hh3
              have hn3 : n = h3 := by simpa using hh3
              subst hn3
              exact hd
          | ok s2 => rw [heq] at h; exact absurd h (by simp)

theorem visitAll_err {deps : List (String × List String)} {f : Nat} :
    ∀ {ns : List String} {s : DfsSt} {e : String},
      visitAll deps f ns s = some (Except.error e) → s.temp = [] →
      ∃ c, IsCycleList deps c ∧ e ∈ c := by
  intro ns
  induction ns with
  | nil => intro s e h _; simp [visitAll] at h
  | cons n ns ih =>
    intro s e h htemp
    simp only [visitAll] at h
    by_cases h1 : s.visited.contains n
    · rw [if_pos h1] at h; exact ih h htemp
    · rw [if_neg h1] at h
      cases heq : visit deps f n s with
      | none => rw [heq] at h; exact absurd h (by simp)
      | some r =>
        cases r with
        | error e2 =>
          rw [heq] at h
          have he : e2 = e := by simpa using h
          subst he
          refine visit_err heq ?_ ?_
          · rw [TempChain, htemp]; exact List.chain'_nil
          · rw [htemp]; intro x hx; simp at hx
        | ok s2 =>
          rw [heq] at h
          have h' : visitAll deps f ns s2 = some (Except.error e) := h
          have hteq : s2.temp = s.temp := (visit_ok_struct heq).1
          exact ih h' (hteq.trans htemp)

/-! ### Behaviour of the outer loop on success -/

theorem visitAll_ok_struct {deps : List (String × List String)} {f : Nat} :
    ∀ {ns : List String} {s s' : DfsSt},
      visitAll deps f ns s = some (Except.ok s') →
      VisitListOkP ns s s' ∧ InvStep deps s s' := by
  intro ns
  induction ns with
  | nil =>
    intro s s' h
    simp only [visitAll, Option.some.injEq, Except.ok.injEq] at h
    subst h
    exact ⟨⟨rfl, fun _ hx => hx, by simp, ⟨[], by simp⟩, fun hc => hc⟩,
      fun hInv => ⟨hInv, fun x hx hx2 => absurd hx hx2⟩⟩
  | cons n ns ih =>
    intro s s' h
    simp only [visitAll] at h
    by_cases h1 : s.visited.contains n
    · rw [if_pos h1] at h
      obtain ⟨⟨ht, hsub, hmem, hord, hcorr⟩, hstep⟩ := ih h
      refine ⟨⟨ht, hsub, ?_, hord, hcorr⟩, hstep⟩
      intro x hx
      rcases List.mem_cons.mp hx with rfl | hx
      · exact hsub (by simpa using h1)
      · exact hmem x hx
    · rw [if_neg h1] at h
      cases heq : visit deps f n s with
      | none => rw [heq] at h; exact absurd h (by simp)
      | some r =>
        cases r with
        | error e => rw [heq] at h; exact absurd h (by simp)
        | ok s2 =>
          rw [heq] at h
          have h' : visitAll deps f ns s2 = some (Except.ok s') := h
          obtain ⟨ht, hsub, hmem, ⟨ext1, hord1⟩, hcorr⟩ := visit_ok_struct heq
          obtain ⟨⟨ht', hsub', hmem', ⟨ext2, hord2⟩, hcorr'⟩, hstep'⟩ := ih h'
          have hstep : InvStep deps s s2 := visit_invStep heq
          refine ⟨⟨ht'.trans ht, fun x hx => hsub' (hsub hx), ?_,
            ⟨ext1 ++ ext2, by rw [hord2, hord1, List.append_assoc]⟩,
            fun hc => hcorr' (hcorr hc)⟩, ?_⟩
          · intro x hx
            rcases List.mem_cons.mp hx with rfl | hx
            · exact hsub' hmem
            · exact hmem' x hx
          · intro hInv
            obtain ⟨hInv2, hdisj⟩ := hstep hInv
            obtain ⟨hInv', hdisj'⟩ := hstep' hInv2
            refine ⟨hInv', fun x hx hx2 => ?_⟩
            by_cases hx3 : x ∈ s2.visited
            · exact hdisj x hx3 hx2
            · have := hdisj' x hx hx3
              rwa [ht] at this

/-! ### The top-level facts about `resolveDependencyOrder` -/

theorem resolveDependencyOrder_ne_none (names : List String)
    (deps : List (String × List String)) :
    resolveDependencyOrder names deps ≠ none := by
  unfold resolveDependencyOrder
  have hU : ∀ x, ∀ d ∈ lookupDeps deps x, d ∈ depUniverse names deps := by
    intro x d hd
    unfold lookupDeps at hd
    cases hfind : deps.find? (fun p => p.1 == x) with
    | none => rw [hfind] at hd; simp at hd
    | some p =>
      rw [hfind] at hd
      have hp : p ∈ deps := List.mem_of_find?_eq_some hfind
      unfold depUniverse
      rw [List.mem_dedup]
      refine List.mem_append_right _ ?_
      rw [List.mem_flatten]
      exact ⟨p.2, List.mem_map_of_mem Prod.snd hp, hd⟩
  have hns : ∀ n ∈ names, n ∈ depUniverse names deps := by
    intro n hn
    unfold depUniverse
    rw [List.mem_dedup]
    exact List.mem_append_left _ hn
  have hm : tempMeasure (depUniverse names deps) ⟨[], [], []⟩ <
      (depUniverse names deps).length.succ := by
    unfold tempMeasure
    simp only [List.toFinset_nil, Finset.sdiff_empty]
    exact Nat.lt_succ_of_le (depUniverse names deps).toFinset_card_le
  have := visitAll_fuel hU hns hm
  cases heq : visitAll deps (depUniverse names deps).length.succ names
      ⟨[], [], []⟩ with
  | none => exact absurd heq this
  | some r => cases r with
    | error e => simp
    | ok s => simp

theorem resolveDependencyOrder_err_cycle {names : List String}
    {deps : List (String × List String)} {e : String}
    (h : resolveDependencyOrder names deps = some (Except.error e)) :
    ∃ c, IsCycleList deps c ∧ e ∈ c := by
  unfold resolveDependencyOrder at h
  cases heq : visitAll deps (depUniverse names deps).length.succ names
      ⟨[], [], []⟩ with
  | none => rw [heq] at h; exact absurd h (by simp)
  | some r =>
    cases r with
    | error e2 =>
      rw [heq] at h
      have he : e2 = e := by simpa using h
      subst he
      exact visitAll_err heq rfl
    | ok s => rw [heq] at h; exact absurd h (by simp)

theorem resolveDependencyOrder_ok_facts {names : List String}
    {deps : List (String × List String)} {sorted : List String}
    (h : resolveDependencyOrder names deps = some (Except.ok sorted)) :
    (∀ n ∈ names, n ∈ sorted) ∧ sorted.Nodup ∧
      GoodOrder deps sorted.reverse ∧
      (∀ x ∈ sorted, ∀ d ∈ lookupDeps deps x, d ∈ sorted) := by
  unfold resolveDependencyOrder at h
  cases heq : visitAll deps (depUniverse names deps).length.succ names
      ⟨[], [], []⟩ with
  | none => rw [heq] at h; exact absurd h (by simp)
  | some r =>
    cases r with
    | error e => rw [heq] at h; exact absurd h (by simp)
    | ok s =>
      rw [heq] at h
      have hs : s.order.reverse = sorted := by simpa using h
      obtain ⟨⟨_, _, hmem, _, _⟩, hstep⟩ := visitAll_ok_struct heq
      have hInv0 : InvSt deps (⟨[], [], []⟩ : DfsSt) := by
        refine ⟨rfl, List.nodup_nil, ?_⟩
        intro x hx
        simp at hx
      obtain ⟨⟨hcorr, hnd, hgood⟩, _⟩ := hstep hInv0
      have hordmem : ∀ x, x ∈ s.order ↔ x ∈ sorted := by
        intro x
        rw [← hs, List.mem_reverse]
      refine ⟨?_, ?_, ?_, ?_⟩
      · intro n hn
        have := hmem n hn
        rw [hcorr] at this
        rw [← hs]
        exact this
      · rw [← hs]
        exact List.nodup_reverse.mpr hnd
      · rw [← hs, List.reverse_reverse]
        exact hgood
      · intro x hx d hd
        have hx' : x ∈ s.order := (hordmem x).mpr hx
        have := (hgood x hx' d hd).1
        exact (hordmem d).mp this

/-- Every node on a cycle has a successor on the same cycle that is one of
its dependencies. -/
theorem cycle_succ {deps : List (String × List String)} {c : List String}
    (hc : IsCycleList deps c) :
    ∀ x ∈ c, ∃ y ∈ c, y ∈ lookupDeps deps x := by
  obtain ⟨hne, hchain, lx, ly, hlast, hhead, hedge⟩ := hc
  intro x hx
  obtain ⟨⟨i, hi⟩, hget⟩ := List.mem_iff_get.mp hx
  by_cases hi1 : i + 1 < c.length
  · refine ⟨c.get ⟨i + 1, hi1⟩, List.mem_iff_get.mpr ⟨⟨i + 1, hi1⟩, rfl⟩, ?_⟩
    have := List.chain'_iff_get.mp hchain i (by omega)
    rw [hget] at this
    exact this
  · have hieq : c.length - 1 = i := by omega
    have hgl : c.getLast? = some x := by
      rw [List.getLast?_eq_getElem?, hieq, List.getElem?_eq_getElem hi]
      rw [← hget]
      simp [List.get_eq_getElem]
    have hlx : lx = x := by
      rw [hgl] at hlast
      exact (Option.some.injEq _ _).mp hlast.symm
    refine ⟨ly, ?_, ?_⟩
    · exact List.mem_of_mem_head? hhead
    · rw [← hlx]
      exact hedge

/-- A list in which all dependencies of every member appear strictly earlier
cannot contain a full dependency cycle. -/
theorem goodOrder_no_cycle {deps : List (String × List String)}
    {order c : List String} (hgood : GoodOrder deps order)
    (hc : IsCycleList deps c) (hsub : ∀ x ∈ c, x ∈ order) : False := by
  obtain ⟨x0, hx0⟩ := List.exists_mem_of_ne_nil c hc.1
  obtain ⟨xm, hxm, hmin⟩ :=
    Finset.exists_min_image c.toFinset (fun x => order.indexOf x)
      ⟨x0, List.mem_toFinset.mpr hx0⟩
  have hxmc : xm ∈ c := List.mem_toFinset.mp hxm
  obtain ⟨y, hyc, hyd⟩ := cycle_succ hc xm hxmc
  have hlt := (hgood xm (hsub xm hxmc) y hyd).2
  have hge := hmin y (List.mem_toFinset.mpr hyc)
  omega

/-- C9: for every input whose dependency graph contains a cycle drawn from
the input names, `resolveDependencyOrder` returns an error, and the name the
error carries (interpolated into `"cycle detected in dependencies involving %s"`)
lies on a cycle of the graph — it is the node at which the depth-first
traversal re-entered a grey node. -/
theorem c9_cycle_yields_error_naming_cycle_node {names : List String}
    {deps : List (String × List String)} {c : List String}
    (hc : IsCycleList deps c) (hsub : ∀ x ∈ c, x ∈ names) :
    ∃ e, resolveDependencyOrder names deps = some (Except.error e) ∧
      (∃ c', IsCycleList deps c' ∧ e ∈ c') ∧
      cycleErrorMessage e = "cycle detected in dependencies involving " ++ e := by
  cases hres : resolveDependencyOrder names deps with
  | none => exact absurd hres (resolveDependencyOrder_ne_none names deps)
  | some r =>
    cases r with
    | error e => exact ⟨e, rfl, resolveDependencyOrder_err_cycle hres, rfl⟩
    | ok sorted =>
      exfalso
      obtain ⟨hnames, _, hgood, _⟩ := resolveDependencyOrder_ok_facts hres
      refine goodOrder_no_cycle hgood hc ?_
      intro x hx
      exact List.mem_reverse.mpr (hnames x (hsub x hx))

/-- Witness for C9 at the spec's own example `A→B→A`. -/
theorem c9_witness :
    ∃ e, resolveDependencyOrder ["a", "b"] [("a", ["b"]), ("b", ["a"])] =
        some (Except.error e) ∧
      (∃ c', IsCycleList [("a", ["b"]), ("b", ["a"])] c' ∧ e ∈ c') ∧
      cycleErrorMessage e = "cycle detected in dependencies involving " ++ e :=
  @c9_cycle_yields_error_naming_cycle_node ["a", "b"]
    [("a", ["b"]), ("b", ["a"])] ["a", "b"]
    ⟨by decide, List.chain'_pair.mpr (by decide), "b", "a", rfl, rfl, by decide⟩
    (by decide)

/-! ## Configuration data model (`pkg/config/config.go`)

Go maps become association lists, Go ints counting seconds/minutes become
`Nat`.  The `Env` field (environment-variable plumbing) is outside every
claim and is omitted. -/

/-- `config.HealthCheck`.  The Go field `Type` is rendered `checkType`. -/
structure HealthCheck where
  checkType : String
  path : String
  port : Nat
  interval : Nat
  timeout : Nat
  retries : Nat
  startPeriod : Nat
deriving Repr, DecidableEq, Inhabited

/-- `config.Volume`.  The Go field `Type` is rendered `volType`. -/
structure Volume where
  source : String
  destination : String
  volType : String
deriving Repr, DecidableEq, Inhabited

/-- `config.Service`. -/
structure Service where
  name : String
  image : String
  volumes : List Volume
  environment : List (String × String)
  ports : List String
  dependsOn : List String
  healthCheck : HealthCheck
  restartPolicy : String
deriving Repr, DecidableEq, Inhabited

/-- `config.App`. -/
structure App where
  name : String
  image : String
  subdomain : String
  path : String
  environment : List (String × String)
  ports : List String
  volumes : List Volume
  dependsOn : List String
  healthCheck : HealthCheck
  restartPolicy : String
deriving Repr, DecidableEq, Inhabited

/-- `config.SSLConfig` (the `dnsCredentials` map is outside every claim). -/
structure SSLConfig where
  enabled : Bool
  provider : String
  email : String
  selfSigned : Bool
  dnsChallenge : Bool
  dnsProvider : String
deriving Repr, DecidableEq, Inhabited

/-- `config.ProxyConfig`.  The Go field `Type` is rendered `proxyType`. -/
structure ProxyConfig where
  proxyType : String
  port : Nat
  httpsPort : Nat
deriving Repr, DecidableEq, Inhabited

/-- `config.Config`. -/
structure Config where
  version : String
  domain : String
  ssl : SSLConfig
  proxy : ProxyConfig
  services : List Service
  apps : List App
  timeout : Nat
  logLevel : String
deriving Repr, DecidableEq, Inhabited

/-! ## Typed resolver wrappers (`dependencies.go`, lines 10–63) -/

/-- Lookup in the `nameToIndex` Go map; a missing key yields the zero value
`0`.  (Go fills this map left to right, overwriting on duplicates; with the
duplicate-free names enforced by validation, first match and last match
agree.) -/
def nameToIndexOf (pairs : List (String × Nat)) (n : String) : Nat :=
  match pairs.find? (fun p => p.1 == n) with
  | some p => p.2
  | none => 0

/-- `resolveServiceDependencies`: extract names, name→index and the
dependency map from the services, sort the names, convert back by index.
(Indexing Go would panic on is unreachable and surfaces as `getD`'s
default.) -/
def resolveServiceDependencies (services : List Service) :
    Option (Except String (List Service)) :=
  let names := services.map (fun s => s.name)
  let nameToIndex := services.enum.map (fun p => (p.2.name, p.1))
  let dependencies := services.map (fun s => (s.name, s.dependsOn))
  match resolveDependencyOrder names dependencies with
  | none => none
  | some (Except.error e) => some (Except.error e)
  | some (Except.ok sorted) =>
      some (Except.ok (sorted.map
        (fun n => services.getD (nameToIndexOf nameToIndex n) default)))

/-- `resolveAppDependencies`: identical shape to
`resolveServiceDependencies`, over apps. -/
def resolveAppDependencies (apps : List App) :
    Option (Except String (List App)) :=
  let names := apps.map (fun a => a.name)
  let nameToIndex := apps.enum.map (fun p => (p.2.name, p.1))
  let dependencies := apps.map (fun a => (a.name, a.dependsOn))
  match resolveDependencyOrder names dependencies with
  | none => none
  | some (Except.error e) => some (Except.error e)
  | some (Except.ok sorted) =>
      some (Except.ok (sorted.map
        (fun n => apps.getD (nameToIndexOf nameToIndex n) default)))

/-- C1: the claim says every acyclic input is ordered with every name after
all of its transitive dependencies.  The code is wrong: the DFS appends each
node after its dependencies (so the completion order already has dependencies
first), and the final reversal at the end of `resolveDependencyOrder`
(dependencies.go lines 115–118) flips that into dependents-first order.  On
the spec's own §8 example (`S1` with no deps, `S2` depending on `S1`) the
returned order is `S2, S1`: `S2` comes *before* its dependency.  This also
contradicts the manager's own invariant check `areDependenciesDeployed`
(manager.go line 176), which would reject this order. -/
theorem c1_resolver_orders_dependent_before_dependency :
    resolveDependencyOrder ["S1", "S2"] [("S2", ["S1"])] =
        some (Except.ok ["S2", "S1"]) ∧
      "S1" ∈ lookupDeps [("S2", ["S1"])] "S2" ∧
      List.indexOf "S2" ["S2", "S1"] < List.indexOf "S1" ["S2", "S1"] := by
  refine ⟨by rfl, by decide, by decide⟩

/-! ## C10: out-of-group dependency names -/

theorem lookupDeps_of_mem_apps {apps : List App}
    (hnd : (apps.map (fun a => a.name)).Nodup) {u : App} (hu : u ∈ apps) :
    lookupDeps (apps.map (fun a => (a.name, a.dependsOn))) u.name =
      u.dependsOn := by
  induction apps with
  | nil => simp at hu
  | cons a rest ih =>
    rcases List.mem_cons.mp hu with rfl | hu2
    · unfold lookupDeps
      simp
    · have hne : a.name ≠ u.name := by
        intro hcontra
        have : u.name ∈ rest.map (fun a => a.name) :=
          List.mem_map_of_mem _ hu2
        rw [← hcontra] at this
        exact (List.nodup_cons.mp (by simpa using hnd)).1 this
      unfold lookupDeps
      simp only [List.map_cons, List.find?_cons]
      have hbeq : (a.name == u.name) = false := by simpa using hne
      simp only [hbeq]
      exact ih (List.nodup_cons.mp (by simpa using hnd)).2 hu2

theorem nameToIndexOf_of_not_mem {apps : List App} {n : String}
    (h : n ∉ apps.map (fun a => a.name)) :
    nameToIndexOf (apps.enum.map (fun p => (p.2.name, p.1))) n = 0 := by
  unfold nameToIndexOf
  rw [List.find?_eq_none.mpr]
  intro q hq
  simp only [List.mem_map] at hq
  obtain ⟨⟨i, a⟩, hmem, rfl⟩ := hq
  have ha : a ∈ apps := by
    have := List.mem_enum_iff_getElem?.mp hmem
    exact List.getElem?_mem this
  simp only [beq_iff_eq]
  intro hcontra
  exact h (hcontra ▸ List.mem_map_of_mem (fun a => a.name) ha)

theorem nameToIndexOf_head {a0 : App} {rest : List App} :
    nameToIndexOf ((a0 :: rest).enum.map (fun p => (p.2.name, p.1)))
      a0.name = 0 := by
  unfold nameToIndexOf
  simp [List.enum_cons, List.find?_cons]

/-- C10 (amended): in every call to `resolveAppDependencies` whose in-group
dependency graph is acyclic and in which some unit lists a dependency name
that is not the name of any unit of the group, the call returns no error,
the out-of-group name is included in the computed ordering and — because the
`nameToIndex` lookup defaults to `0` on missing names — every position of the
ordering holding such a name is mapped to the unit at index 0, so the result
is strictly longer than the input and contains the first unit at least
twice.  (The original claim, quantified over *every* such call, is refuted by
`c10_counterexample`: an in-group cycle still yields an error.) -/
theorem c10_missing_dependency_names_map_to_first_unit
    {apps : List App} {u : App} {missing : String}
    (hnd : (apps.map (fun a => a.name)).Nodup)
    (hacyc : ∀ c, ¬ IsCycleList (apps.map (fun a => (a.name, a.dependsOn))) c)
    (hu : u ∈ apps) (hmiss : missing ∈ u.dependsOn)
    (hnotin : missing ∉ apps.map (fun a => a.name)) :
    ∃ sorted r a0,
      apps.head? = some a0 ∧
      resolveDependencyOrder (apps.map (fun a => a.name))
          (apps.map (fun a => (a.name, a.dependsOn))) =
        some (Except.ok sorted) ∧
      resolveAppDependencies apps = some (Except.ok r) ∧
      missing ∈ sorted ∧
      apps.length < r.length ∧
      (∀ i n, sorted.get? i = some n → n ∉ apps.map (fun a => a.name) →
        r.get? i = some a0) ∧
      (∃ i j, i ≠ j ∧ r.get? i = some a0 ∧ r.get? j = some a0) := by
  classical
  set names := apps.map (fun a => a.name) with hnames_def
  set deps := apps.map (fun a => (a.name, a.dependsOn)) with hdeps_def
  obtain ⟨a0, rest, rfl⟩ : ∃ a0 rest, apps = a0 :: rest := by
    cases apps with
    | nil => simp at hu
    | cons a rest => exact ⟨a, rest, rfl⟩
  cases hres : resolveDependencyOrder names deps with
  | none => exact absurd hres (resolveDependencyOrder_ne_none names deps)
  | some res =>
    cases res with
    | error e =>
      obtain ⟨c, hc, _⟩ := resolveDependencyOrder_err_cycle hres
      exact absurd hc (hacyc c)
    | ok sorted =>
      obtain ⟨hmemnames, hndsorted, _, hclosed⟩ :=
        resolveDependencyOrder_ok_facts hres
      have huname : u.name ∈ sorted := by
        refine hmemnames u.name ?_
        exact List.mem_map_of_mem _ hu
      have hmiss_sorted : missing ∈ sorted := by
        have := hclosed u.name huname missing ?_
        · exact this
        · rw [hdeps_def, lookupDeps_of_mem_apps hnd hu]
          exact hmiss
      set f : String → App := fun n =>
        (a0 :: rest).getD
          (nameToIndexOf ((a0 :: rest).enum.map (fun p => (p.2.name, p.1))) n)
          default with hf_def
      have hres2 : resolveAppDependencies (a0 :: rest) =
          some (Except.ok (sorted.map f)) := by
        have hres' := hres
        rw [hnames_def, hdeps_def] at hres'
        simp only [resolveAppDependencies]
        rw [hres']
      have hfmiss : ∀ n, n ∉ names → f n = a0 := by
        intro n hn
        rw [hf_def]
        simp only [nameToIndexOf_of_not_mem hn]
        rfl
      have hfa0 : f a0.name = a0 := by
        rw [hf_def]
        simp only [nameToIndexOf_head]
        rfl
      refine ⟨sorted, sorted.map f, a0, rfl, rfl, hres2, hmiss_sorted, ?_, ?_, ?_⟩
      · -- strictly longer than the input
        rw [List.length_map]
        have hsub : insert missing names.toFinset ⊆ sorted.toFinset := by
          refine Finset.insert_subset (List.mem_toFinset.mpr hmiss_sorted) ?_
          intro x hx
          exact List.mem_toFinset.mpr (hmemnames x (List.mem_toFinset.mp hx))
        have hcard1 : (insert missing names.toFinset).card =
            names.toFinset.card + 1 :=
          Finset.card_insert_of_not_mem (fun hc => hnotin (List.mem_toFinset.mp hc))
        have hcard2 : names.toFinset.card = names.length :=
          List.toFinset_card_of_nodup hnd
        have hcard3 : sorted.toFinset.card = sorted.length :=
          List.toFinset_card_of_nodup hndsorted
        have hle := Finset.card_le_card hsub
        have hlen : names.length = (a0 :: rest).length := by
          rw [hnames_def, List.length_map]
        omega
      · -- every out-of-group position maps to the first unit
        intro i n hget hn
        rw [List.get?_eq_getElem?] at hget
        rw [List.get?_eq_getElem?, List.getElem?_map, hget]
        simp [hfmiss n hn]
      · -- the first unit appears at two distinct positions
        refine ⟨sorted.indexOf missing, sorted.indexOf a0.name, ?_, ?_, ?_⟩
        · intro hij
          have h1 : sorted.get? (sorted.indexOf missing) = some missing :=
            List.indexOf_get? hmiss_sorted
          have h2 : sorted.get? (sorted.indexOf a0.name) = some a0.name := by
            refine List.indexOf_get? ?_
            refine hmemnames a0.name ?_
            rw [hnames_def]
            exact List.mem_map_of_mem _ (List.mem_cons_self a0 rest)
          rw [hij, h2] at h1
          have hthis : a0.name = missing := by simpa using h1
          refine hnotin ?_
          rw [← hthis]
          exact List.mem_map_of_mem _ (List.mem_cons_self a0 rest)
        · have h1 : sorted.get? (sorted.indexOf missing) = some missing :=
            List.indexOf_get? hmiss_sorted
          rw [List.get?_eq_getElem?] at h1 ⊢
          rw [List.getElem?_map, h1]
          simp [hfmiss missing hnotin]
        · have ha0mem : a0.name ∈ sorted := by
            refine hmemnames a0.name ?_
            rw [hnames_def]
            exact List.mem_map_of_mem _ (List.mem_cons_self a0 rest)
          have h2 : sorted.get? (sorted.indexOf a0.name) = some a0.name :=
            List.indexOf_get? ha0mem
          rw [List.get?_eq_getElem?] at h2 ⊢
          rw [List.getElem?_map, h2]
          simp [hfa0]

/-- A one-key dependency map whose key does not appear in its own list has no
cycle. -/
theorem no_cycle_single {n : String} {ds : List String} (hnin : n ∉ ds) :
    ∀ c, ¬ IsCycleList [(n, ds)] c := by
  intro c hc
  obtain ⟨hne, hchain, x, y, hlast, hhead, hedge⟩ := hc
  have hchar : ∀ a b : String, b ∈ lookupDeps [(n, ds)] a → a = n ∧ b ∈ ds := by
    intro a b hab
    unfold lookupDeps at hab
    by_cases ha : n = a
    · subst ha
      simp only [List.find?_cons, beq_self_eq_true] at hab
      exact ⟨rfl, by simpa using hab⟩
    · have hbeq : ((n, ds).1 == a) = false := by simpa using ha
      simp only [List.find?_cons, hbeq] at hab
      simp at hab
  obtain ⟨hx, hy⟩ := hchar x y hedge
  subst hx
  cases c with
  | nil => exact hne rfl
  | cons hd t =>
    have hhd : hd = y := by simpa using hhead
    subst hhd
    cases t with
    | nil =>
      have : hd = x := by simpa using hlast
      exact hnin (this ▸ hy)
    | cons d t' =>
      have hed : d ∈ lookupDeps [(x, ds)] hd := (List.chain'_cons.mp hchain).1
      have := (hchar hd d hed).1
      exact hnin (this ▸ hy)

/-- Counterexample to C10 as frozen: when the in-group graph is cyclic, a
call in which a unit also lists an out-of-group dependency name returns a
cycle error, not success. -/
theorem c10_counterexample :
    resolveAppDependencies
        [⟨"a", "i", "", "", [], [], [], ["b", "x"], default, ""⟩,
         ⟨"b", "i", "", "", [], [], [], ["a"], default, ""⟩] =
      some (Except.error "a") ∧
    "x" ∈ (⟨"a", "i", "", "", [], [], [], ["b", "x"], default, ""⟩ : App).dependsOn ∧
    "x" ∉ ([⟨"a", "i", "", "", [], [], [], ["b", "x"], default, ""⟩,
         ⟨"b", "i", "", "", [], [], [], ["a"], default, ""⟩] : List App).map
        (fun a => a.name) :=
  ⟨by rfl, by decide, by decide⟩

/-- Witness for the amended C10 on a one-app group depending on the
out-of-group name `s1`. -/
theorem c10_witness :
    ∃ sorted r a0,
      ([⟨"a", "i", "", "", [], [], [], ["s1"], default, ""⟩] : List App).head? =
          some a0 ∧
      resolveDependencyOrder
          (([⟨"a", "i", "", "", [], [], [], ["s1"], default, ""⟩] : List App).map
            (fun a => a.name))
          (([⟨"a", "i", "", "", [], [], [], ["s1"], default, ""⟩] : List App).map
            (fun a => (a.name, a.dependsOn))) = some (Except.ok sorted) ∧
      resolveAppDependencies
          [⟨"a", "i", "", "", [], [], [], ["s1"], default, ""⟩] =
        some (Except.ok r) ∧
      "s1" ∈ sorted ∧
      ([⟨"a", "i", "", "", [], [], [], ["s1"], default, ""⟩] : List App).length <
        r.length ∧
      (∀ i n, sorted.get? i = some n →
        n ∉ ([⟨"a", "i", "", "", [], [], [], ["s1"], default, ""⟩] : List App).map
          (fun a => a.name) → r.get? i = some a0) ∧
      (∃ i j, i ≠ j ∧ r.get? i = some a0 ∧ r.get? j = some a0) :=
  @c10_missing_dependency_names_map_to_first_unit
    [⟨"a", "i", "", "", [], [], [], ["s1"], default, ""⟩]
    ⟨"a", "i", "", "", [], [], [], ["s1"], default, ""⟩ "s1"
    (by decide) (no_cycle_single (by decide)) (by decide) (by decide) (by decide)

/-! ## Configuration validation (`pkg/config/validation.go`) -/

/-- One constructor per `return fmt.Errorf(...)` site of `Validate`, carrying
the interpolated data; `validationErrorMessage` rebuilds the Go message. -/
inductive VErr where
  | missingVersion
  | missingDomain
  | serviceMissingName (i : Nat)
  | duplicateService (n : String)
  | serviceMissingImage (n : String)
  | serviceUndefinedDep (sname dep : String)
  | appMissingName (i : Nat)
  | duplicateApp (n : String)
  | appMissingImage (n : String)
  | duplicateSubdomain (s : String)
  | duplicatePath (p : String)
  | appUndefinedDep (aname dep : String)
  | sslEmailRequired
  | dnsProviderRequired
deriving Repr, DecidableEq

/-- The Go `fmt.Errorf` format strings of `Validate`, verbatim. -/
def validationErrorMessage : VErr → String
  | .missingVersion => "config version is required"
  | .missingDomain => "domain is required"
  | .serviceMissingName i => "service at index " ++ toString i ++ " is missing a name"
  | .duplicateService n => "duplicate service name: " ++ n
  | .serviceMissingImage n => "service " ++ n ++ " is missing an image"
  | .serviceUndefinedDep sname dep =>
      "service " ++ sname ++ " depends on undefined service: " ++ dep
  | .appMissingName i => "app at index " ++ toString i ++ " is missing a name"
  | .duplicateApp n => "duplicate app name: " ++ n
  | .appMissingImage n => "app " ++ n ++ " is missing an image"
  | .duplicateSubdomain s => "duplicate subdomain: " ++ s
  | .duplicatePath p => "duplicate path: " ++ p
  | .appUndefinedDep aname dep =>
      "app " ++ aname ++ " depends on undefined service or app: " ++ dep
  | .sslEmailRequired => "SSL email is required when using Let's Encrypt"
  | .dnsProviderRequired => "DNS provider is required when using DNS challenge"

/-- `normalizePath` (validation.go, lines 100–112). -/
def normalizePath (p : String) : String :=
  let p1 := if p.startsWith "/" then p else "/" ++ p
  if p1 ≠ "/" ∧ p1.endsWith "/" then p1.dropRight 1 else p1

/-- The `// Validate services` loop of `Validate`: `seen` is the
`serviceNames` map built so far (note Go inserts the current name *before*
checking its dependencies), `i` the running index.  On success it returns
the final name set. -/
def validateServices : List Service → Nat → List String → Except VErr (List String)
  | [], _, seen => Except.ok seen
  | s :: rest, i, seen =>
    if s.name = "" then Except.error (.serviceMissingName i)
    else if seen.contains s.name then Except.error (.duplicateService s.name)
    else
      let seen2 := s.name :: seen
      if s.image = "" then Except.error (.serviceMissingImage s.name)
      else
        match s.dependsOn.find? (fun d => !seen2.contains d) with
        | some d => Except.error (.serviceUndefinedDep s.name d)
        | none => validateServices rest (i + 1) seen2

/-- The `// Validate apps` loop of `Validate`: the completed `serviceNames`
set plus the `appNames`, `subdomains` and `paths` maps built so far. -/
def validateApps (serviceNames : List String) :
    List App → Nat → List String → List String → List String → Except VErr Unit
  | [], _, _, _, _ => Except.ok ()
  | a :: rest, i, appSeen, subSeen, pathSeen =>
    if a.name = "" then Except.error (.appMissingName i)
    else if appSeen.contains a.name then Except.error (.duplicateApp a.name)
    else
      let appSeen2 := a.name :: appSeen
      if a.image = "" then Except.error (.appMissingImage a.name)
      else if a.subdomain ≠ "" ∧ subSeen.contains a.subdomain then
        Except.error (.duplicateSubdomain a.subdomain)
      else
        let subSeen2 := if a.subdomain ≠ "" then a.subdomain :: subSeen else subSeen
        if a.path ≠ "" ∧ pathSeen.contains (normalizePath a.path) then
          Except.error (.duplicatePath a.path)
        else
          let pathSeen2 :=
            if a.path ≠ "" then normalizePath a.path :: pathSeen else pathSeen
          match a.dependsOn.find?
              (fun d => !serviceNames.contains d && !appSeen2.contains d) with
          | some d => Except.error (.appUndefinedDep a.name d)
          | none => validateApps serviceNames rest (i + 1) appSeen2 subSeen2 pathSeen2

/-- `Validate` (validation.go, lines 9–98). -/
def Validate (cfg : Config) : Except VErr Unit :=
  if cfg.version = "" then Except.error .missingVersion
  else if cfg.domain = "" then Except.error .missingDomain
  else
    match validateServices cfg.services 0 [] with
    | Except.error e => Except.error e
    | Except.ok serviceNames =>
      match validateApps serviceNames cfg.apps 0 [] [] [] with
      | Except.error e => Except.error e
      | Except.ok _ =>
        if cfg.ssl.enabled then
          if (!cfg.ssl.selfSigned) ∧ cfg.ssl.email = "" then
            Except.error .sslEmailRequired
          else if cfg.ssl.dnsChallenge ∧ cfg.ssl.dnsProvider = "" then
            Except.error .dnsProviderRequired
          else Except.ok ()
        else Except.ok ()

/-- Counterexample to C8 as frozen: a service depending on a *declared app*
is rejected by `Validate` (service dependencies are only checked against the
service names seen so far), refuting "accepts a dependency that names any
declared unit of either kind". -/
theorem c8_counterexample :
    Validate
        ⟨"1", "d", ⟨false, "", "", false, false, ""⟩, ⟨"nginx", 80, 443⟩,
          [⟨"s", "i", [], [], [], ["a"], default, ""⟩],
          [⟨"a", "i", "", "", [], [], [], [], default, ""⟩], 0, ""⟩ =
      Except.error (.serviceUndefinedDep "s" "a") ∧
    "a" ∈ ([⟨"a", "i", "", "", [], [], [], [], default, ""⟩] : List App).map
        (fun a => a.name) :=
  ⟨by rfl, by decide⟩

theorem validateServices_ok_out :
    ∀ (l : List Service) (i : Nat) (seen out : List String),
      validateServices l i seen = Except.ok out →
      out = (l.map (fun s => s.name)).reverse ++ seen := by
  intro l
  induction l with
  | nil =>
    intro i seen out h
    simp only [validateServices, Except.ok.injEq] at h
    simp [← h]
  | cons s rest ih =>
    intro i seen out h
    simp only [validateServices] at h
    by_cases h1 : s.name = ""
    · rw [if_pos h1] at h; exact absurd h (by simp)
    · rw [if_neg h1] at h
      by_cases h2 : seen.contains s.name
      · rw [if_pos h2] at h; exact absurd h (by simp)
      · rw [if_neg h2] at h
        by_cases h3 : s.image = ""
        · rw [if_pos h3] at h; exact absurd h (by simp)
        · rw [if_neg h3] at h
          cases hfind : s.dependsOn.find? (fun d => !(s.name :: seen).contains d) with
          | some d => rw [hfind] at h; exact absurd h (by simp)
          | none =>
            rw [hfind] at h
            have := ih (i + 1) (s.name :: seen) out h
            rw [this]
            simp

theorem validateServices_ok_iff :
    ∀ (l : List Service) (i : Nat) (seen : List String),
      (∀ s ∈ l, s.name ≠ "" ∧ s.image ≠ "") →
      ((l.map (fun s => s.name)).Nodup) →
      (∀ s ∈ l, s.name ∉ seen) →
      ((∃ out, validateServices l i seen = Except.ok out) ↔
        (∀ j s, l.get? j = some s → ∀ d ∈ s.dependsOn,
          d ∈ (l.take (j + 1)).map (fun s => s.name) ∨ d ∈ seen)) := by
  intro l
  induction l with
  | nil =>
    intro i seen _ _ _
    constructor
    · intro _ j s hget; simp at hget
    · intro _; exact ⟨seen, rfl⟩
  | cons s rest ih =>
    intro i seen hwf hnd hseen
    obtain ⟨hname, himg⟩ := hwf s (List.mem_cons_self s rest)
    have hnotseen : s.name ∉ seen := hseen s (List.mem_cons_self s rest)
    have hnotrest : s.name ∉ rest.map (fun s => s.name) :=
      (List.nodup_cons.mp (by simpa using hnd)).1
    simp only [validateServices]
    rw [if_neg hname, if_neg (by simpa using hnotseen), if_neg himg]
    cases hfind : s.dependsOn.find? (fun d => !(s.name :: seen).contains d) with
    | some d =>
      have hdmem : d ∈ s.dependsOn := List.mem_of_find?_eq_some hfind
      have hdnot : d ∉ s.name :: seen := by
        have := List.find?_some hfind
        simpa using this
      constructor
      · intro hex; obtain ⟨out, hout⟩ := hex; exact absurd hout (by simp)
      · intro hcond
        exfalso
        have := hcond 0 s rfl d hdmem
        rcases this with hl | hr
        · simp only [List.take_succ_cons, List.take_zero, List.map_cons,
            List.map_nil, List.mem_singleton] at hl
          exact hdnot (hl ▸ List.mem_cons_self _ _)
        · exact hdnot (List.mem_cons_of_mem _ hr)
    | none =>
      have hall : ∀ d ∈ s.dependsOn, d ∈ s.name :: seen := by
        intro d hd
        have h2 := List.find?_eq_none.mp hfind d hd
        have h2' : ¬d = s.name → d ∈ seen := by simpa using h2
        have h3 : d = s.name ∨ d ∈ seen := Decidable.or_iff_not_imp_left.mpr h2'
        simpa using h3
      have hwf' : ∀ s' ∈ rest, s'.name ≠ "" ∧ s'.image ≠ "" :=
        fun s' hs' => hwf s' (List.mem_cons_of_mem _ hs')
      have hnd' : (rest.map (fun s => s.name)).Nodup :=
        (List.nodup_cons.mp (by simpa using hnd)).2
      have hseen' : ∀ s' ∈ rest, s'.name ∉ s.name :: seen := by
        intro s' hs'
        intro hc
        rcases List.mem_cons.mp hc with hc1 | hc2
        · exact hnotrest (hc1 ▸ List.mem_map_of_mem _ hs')
        · exact hseen s' (List.mem_cons_of_mem _ hs') hc2
      rw [ih (i + 1) (s.name :: seen) hwf' hnd' hseen']
      constructor
      · intro hcond j s' hget d hd
        cases j with
        | zero =>
          have hs' : s = s' := by simpa using hget
          subst hs'
          rcases List.mem_cons.mp (hall d hd) with h1 | h2
          · left
            simp [h1]
          · right; exact h2
        | succ j =>
          have hget' : rest.get? j = some s' := by simpa using hget
          rcases hcond j s' hget' d hd with h1 | h2
          · left
            rw [List.take_succ_cons, List.map_cons]
            exact List.mem_cons_of_mem _ h1
          · rcases List.mem_cons.mp h2 with h3 | h4
            · left
              rw [List.take_succ_cons, List.map_cons, h3]
              exact List.mem_cons_self _ _
            · right; exact h4
      · intro hcond j s' hget d hd
        have hget' : (s :: rest).get? (j + 1) = some s' := by simpa using hget
        rcases hcond (j + 1) s' hget' d hd with h1 | h2
        · rw [List.take_succ_cons, List.map_cons] at h1
          rcases List.mem_cons.mp h1 with h3 | h4
          · right; exact h3 ▸ List.mem_cons_self _ _
          · left; exact h4
        · right; exact List.mem_cons_of_mem _ h2

theorem validateApps_ok_iff :
    ∀ (l : List App) (serviceNames : List String) (i : Nat)
      (appSeen subSeen pathSeen : List String),
      (∀ a ∈ l, a.name ≠ "" ∧ a.image ≠ "") →
      ((l.map (fun a => a.name)).Nodup) →
      (∀ a ∈ l, a.name ∉ appSeen) →
      (((l.filter (fun a => a.subdomain ≠ "")).map (fun a => a.subdomain)).Nodup) →
      (∀ a ∈ l, a.subdomain ≠ "" → a.subdomain ∉ subSeen) →
      (((l.filter (fun a => a.path ≠ "")).map
          (fun a => normalizePath a.path)).Nodup) →
      (∀ a ∈ l, a.path ≠ "" → normalizePath a.path ∉ pathSeen) →
      ((validateApps serviceNames l i appSeen subSeen pathSeen =
          Except.ok ()) ↔
        (∀ j a, l.get? j = some a → ∀ d ∈ a.dependsOn,
          d ∈ serviceNames ∨ d ∈ (l.take (j + 1)).map (fun a => a.name) ∨
            d ∈ appSeen)) := by
  intro l
  induction l with
  | nil =>
    intro serviceNames i appSeen subSeen pathSeen _ _ _ _ _ _ _
    constructor
    · intro _ j a hget; simp at hget
    · intro _; rfl
  | cons a rest ih =>
    intro serviceNames i appSeen subSeen pathSeen hwf hnd hseen hsubnd hsub
      hpathnd hpath
    obtain ⟨hname, himg⟩ := hwf a (List.mem_cons_self a rest)
    have hnotseen : a.name ∉ appSeen := hseen a (List.mem_cons_self a rest)
    have hnotrest : a.name ∉ rest.map (fun a => a.name) :=
      (List.nodup_cons.mp (by simpa using hnd)).1
    simp only [validateApps]
    rw [if_neg hname, if_neg (by simpa using hnotseen), if_neg himg,
      if_neg (by
        rintro ⟨hne, hcont⟩
        exact hsub a (List.mem_cons_self a rest) hne (by simpa using hcont)),
      if_neg (by
        rintro ⟨hne, hcont⟩
        exact hpath a (List.mem_cons_self a rest) hne (by simpa using hcont))]
    cases hfind : a.dependsOn.find?
        (fun d => !serviceNames.contains d && !(a.name :: appSeen).contains d) with
    | some d =>
      have hdmem : d ∈ a.dependsOn := List.mem_of_find?_eq_some hfind
      have hdprop := List.find?_some hfind
      simp only [Bool.and_eq_true, Bool.not_eq_true'] at hdprop
      have hdns : d ∉ serviceNames ∧ d ∉ a.name :: appSeen := by
        constructor
        · intro hc
          have hph := hdprop.1
          simp [hc] at hph
        · intro hc
          have hph := hdprop.2
          simp [hc] at hph
      constructor
      · intro hout; simp at hout
      · intro hcond
        exfalso
        rcases hcond 0 a rfl d hdmem with h1 | h2 | h3
        · exact hdns.1 h1
        · simp only [List.take_succ_cons, List.take_zero, List.map_cons,
            List.map_nil, List.mem_singleton] at h2
          exact hdns.2 (h2 ▸ List.mem_cons_self _ _)
        · exact hdns.2 (List.mem_cons_of_mem _ h3)
    | none =>
      show validateApps serviceNames rest (i + 1) (a.name :: appSeen)
          (if a.subdomain ≠ "" then a.subdomain :: subSeen else subSeen)
          (if a.path ≠ "" then normalizePath a.path :: pathSeen else pathSeen) =
          Except.ok () ↔ _
      have hall : ∀ d ∈ a.dependsOn, d ∈ serviceNames ∨ d ∈ a.name :: appSeen := by
        intro d hd
        have h2 := List.find?_eq_none.mp hfind d hd
        have h2' : ¬d ∈ serviceNames → d ∈ a.name :: appSeen := by
          intro hns
          by_cases hc : d ∈ a.name :: appSeen
          · exact hc
          · exfalso
            refine h2 ?_
            simp [hns, hc]
        exact Decidable.or_iff_not_imp_left.mpr h2'
      have hwf' : ∀ a' ∈ rest, a'.name ≠ "" ∧ a'.image ≠ "" :=
        fun a' ha' => hwf a' (List.mem_cons_of_mem _ ha')
      have hnd' : (rest.map (fun a => a.name)).Nodup :=
        (List.nodup_cons.mp (by simpa using hnd)).2
      have hseen' : ∀ a' ∈ rest, a'.name ∉ a.name :: appSeen := by
        intro a' ha' hc
        rcases List.mem_cons.mp hc with hc1 | hc2
        · exact hnotrest (hc1 ▸ List.mem_map_of_mem _ ha')
        · exact hseen a' (List.mem_cons_of_mem _ ha') hc2
      have hsubnd' : ((rest.filter (fun a => a.subdomain ≠ "")).map
          (fun a => a.subdomain)).Nodup := by
        by_cases hse : a.subdomain = ""
        · have : (a :: rest).filter (fun a => a.subdomain ≠ "") =
              rest.filter (fun a => a.subdomain ≠ "") := by
            rw [List.filter_cons]
            simp [hse]
          rwa [this] at hsubnd
        · have : (a :: rest).filter (fun a => a.subdomain ≠ "") =
              a :: rest.filter (fun a => a.subdomain ≠ "") := by
            rw [List.filter_cons]
            simp [hse]
          rw [this, List.map_cons] at hsubnd
          exact (List.nodup_cons.mp hsubnd).2
      have hsub' : ∀ a' ∈ rest, a'.subdomain ≠ "" → a'.subdomain ∉
          (if a.subdomain ≠ "" then a.subdomain :: subSeen else subSeen) := by
        intro a' ha' hne hc
        by_cases hse : a.subdomain = ""
        · rw [if_neg (by simpa using hse)] at hc
          exact hsub a' (List.mem_cons_of_mem _ ha') hne hc
        · rw [if_pos hse] at hc
          rcases List.mem_cons.mp hc with hc1 | hc2
          · have hfl : (a :: rest).filter (fun a => a.subdomain ≠ "") =
                a :: rest.filter (fun a => a.subdomain ≠ "") := by
              rw [List.filter_cons]; simp [hse]
            rw [hfl, List.map_cons] at hsubnd
            refine (List.nodup_cons.mp hsubnd).1 ?_
            rw [← hc1]
            refine List.mem_map_of_mem _ ?_
            rw [List.mem_filter]
            exact ⟨ha', by simpa using hne⟩
          · exact hsub a' (List.mem_cons_of_mem _ ha') hne hc2
      have hpathnd' : ((rest.filter (fun a => a.path ≠ "")).map
          (fun a => normalizePath a.path)).Nodup := by
        by_cases hpe : a.path = ""
        · have : (a :: rest).filter (fun a => a.path ≠ "") =
              rest.filter (fun a => a.path ≠ "") := by
            rw [List.filter_cons]; simp [hpe]
          rwa [this] at hpathnd
        · have : (a :: rest).filter (fun a => a.path ≠ "") =
              a :: rest.filter (fun a => a.path ≠ "") := by
            rw [List.filter_cons]; simp [hpe]
          rw [this, List.map_cons] at hpathnd
          exact (List.nodup_cons.mp hpathnd).2
      have hpath' : ∀ a' ∈ rest, a'.path ≠ "" → normalizePath a'.path ∉
          (if a.path ≠ "" then normalizePath a.path :: pathSeen else pathSeen) := by
        intro a' ha' hne hc
        by_cases hpe : a.path = ""
        · rw [if_neg (by simpa using hpe)] at hc
          exact hpath a' (List.mem_cons_of_mem _ ha') hne hc
        · rw [if_pos hpe] at hc
          rcases List.mem_cons.mp hc with hc1 | hc2
          · have hfl : (a :: rest).filter (fun a => a.path ≠ "") =
                a :: rest.filter (fun a => a.path ≠ "") := by
              rw [List.filter_cons]; simp [hpe]
            rw [hfl, List.map_cons] at hpathnd
            refine (List.nodup_cons.mp hpathnd).1 ?_
            rw [← hc1]
            refine List.mem_map_of_mem _ ?_
            rw [List.mem_filter]
            exact ⟨ha', by simpa using hne⟩
          · exact hpath a' (List.mem_cons_of_mem _ ha') hne hc2
      rw [ih serviceNames (i + 1) (a.name :: appSeen) _ _ hwf' hnd' hseen'
        hsubnd' hsub' hpathnd' hpath']
      constructor
      · intro hcond j a' hget d hd
        cases j with
        | zero =>
          have ha' : a = a' := by simpa using hget
          subst ha'
          rcases hall d hd with h1 | h2
          · left; exact h1
          · rcases List.mem_cons.mp h2 with h3 | h4
            · right; left; simp [h3]
            · right; right; exact h4
        | succ j =>
          have hget' : rest.get? j = some a' := by simpa using hget
          rcases hcond j a' hget' d hd with h1 | h2 | h3
          · left; exact h1
          · right; left
            rw [List.take_succ_cons, List.map_cons]
            exact List.mem_cons_of_mem _ h2
          · rcases List.mem_cons.mp h3 with h4 | h5
            · right; left
              rw [List.take_succ_cons, List.map_cons, h4]
              exact List.mem_cons_self _ _
            · right; right; exact h5
      · intro hcond j a' hget d hd
        have hget' : (a :: rest).get? (j + 1) = some a' := by simpa using hget
        rcases hcond (j + 1) a' hget' d hd with h1 | h2 | h3
        · left; exact h1
        · rw [List.take_succ_cons, List.map_cons] at h2
          rcases List.mem_cons.mp h2 with h4 | h5
          · right; right; exact h4 ▸ List.mem_cons_self _ _
          · right; left; exact h5
        · right; right; exact List.mem_cons_of_mem _ h3

/-- C8 (amended): on a configuration whose non-dependency checks all pass,
`Validate` accepts exactly when every service dependency names a service
declared at the *same or an earlier* position, and every app dependency
names either any declared service or an app declared at the same or an
earlier position.  An undeclared name is therefore always rejected (the
claim's first half), but so are some declared-unit references: a service
depending on a declared app, or any forward reference within a group
(`c8_counterexample`), refuting "accepts a dependency that names any
declared unit of either kind". -/
theorem c8_validate_accepts_only_backward_dependencies (cfg : Config)
    (hv : cfg.version ≠ "") (hd : cfg.domain ≠ "")
    (hs1 : ∀ s ∈ cfg.services, s.name ≠ "" ∧ s.image ≠ "")
    (hs2 : (cfg.services.map (fun s => s.name)).Nodup)
    (ha1 : ∀ a ∈ cfg.apps, a.name ≠ "" ∧ a.image ≠ "")
    (ha2 : (cfg.apps.map (fun a => a.name)).Nodup)
    (hsub : ((cfg.apps.filter (fun a => a.subdomain ≠ "")).map
      (fun a => a.subdomain)).Nodup)
    (hpath : ((cfg.apps.filter (fun a => a.path ≠ "")).map
      (fun a => normalizePath a.path)).Nodup)
    (hssl : cfg.ssl.enabled = false) :
    (Validate cfg = Except.ok ()) ↔
      ((∀ j s, cfg.services.get? j = some s → ∀ d ∈ s.dependsOn,
          d ∈ (cfg.services.take (j + 1)).map (fun s => s.name)) ∧
       (∀ j a, cfg.apps.get? j = some a → ∀ d ∈ a.dependsOn,
          d ∈ cfg.services.map (fun s => s.name) ∨
            d ∈ (cfg.apps.take (j + 1)).map (fun a => a.name))) := by
  have hsiff := validateServices_ok_iff cfg.services 0 [] hs1 hs2 (by simp)
  cases hsv : validateServices cfg.services 0 [] with
  | error e =>
    rw [hsv] at hsiff
    have hred : Validate cfg = Except.error e := by
      simp only [Validate, if_neg hv, if_neg hd, hsv]
    rw [hred]
    constructor
    · intro h; exact absurd h (by simp)
    · rintro ⟨hc1, _⟩
      exfalso
      have hex : ∃ out, (Except.error e : Except VErr (List String)) =
          Except.ok out := by
        rw [hsiff]
        intro j s hget d hd
        left
        exact hc1 j s hget d hd
      obtain ⟨out, hout⟩ := hex
      exact absurd hout (by simp)
  | ok serviceNames =>
    have hout : serviceNames = (cfg.services.map (fun s => s.name)).reverse := by
      have := validateServices_ok_out cfg.services 0 [] serviceNames hsv
      simpa using this
    have haiff := validateApps_ok_iff cfg.apps serviceNames 0 [] [] []
      ha1 ha2 (by simp) hsub (by simp) hpath (by simp)
    cases hav : validateApps serviceNames cfg.apps 0 [] [] [] with
    | error e =>
      rw [hav] at haiff
      have hred : Validate cfg = Except.error e := by
        simp only [Validate, if_neg hv, if_neg hd, hsv, hav]
      rw [hred]
      constructor
      · intro h; exact absurd h (by simp)
      · rintro ⟨hc1, hc2⟩
        exfalso
        have hcontra : (Except.error e : Except VErr Unit) = Except.ok () := by
          rw [haiff]
          intro j a hget d hd
          rcases hc2 j a hget d hd with h1 | h2
          · left
            rw [hout, List.mem_reverse]
            exact h1
          · right; left; exact h2
        exact absurd hcontra (by simp)
    | ok u =>
      rw [hav] at haiff
      cases u
      have hred : Validate cfg = Except.ok () := by
        simp only [Validate, if_neg hv, if_neg hd, hsv, hav, hssl,
          Bool.false_eq_true, if_false]
      rw [hred]
      constructor
      · intro _
        constructor
        · intro j s hget d hd
          have hc := (hsiff.mp ⟨serviceNames, hsv⟩) j s hget d hd
          rcases hc with h1 | h2
          · exact h1
          · simp at h2
        · intro j a hget d hd
          have hc := (haiff.mp rfl) j a hget d hd
          rcases hc with h1 | h2 | h3
          · left
            rw [hout, List.mem_reverse] at h1
            exact h1
          · right; exact h2
          · simp at h3
      · intro _; rfl

/-- Witness for the amended C8 on a one-service, no-app configuration. -/
theorem c8_witness :
    (Validate ⟨"1", "d", ⟨false, "", "", false, false, ""⟩, ⟨"nginx", 80, 443⟩,
        [⟨"s", "i", [], [], [], [], default, ""⟩], [], 0, ""⟩ =
      Except.ok ()) ↔
    ((∀ j s, ([⟨"s", "i", [], [], [], [], default, ""⟩] : List Service).get? j =
          some s → ∀ d ∈ s.dependsOn,
        d ∈ (([⟨"s", "i", [], [], [], [], default, ""⟩] : List Service).take
            (j + 1)).map (fun s => s.name)) ∧
     (∀ j a, ([] : List App).get? j = some a → ∀ d ∈ a.dependsOn,
        d ∈ ([⟨"s", "i", [], [], [], [], default, ""⟩] : List Service).map
            (fun s => s.name) ∨
          d ∈ (([] : List App).take (j + 1)).map (fun a => a.name))) :=
  c8_validate_accepts_only_backward_dependencies _ (by decide) (by decide)
    (by decide) (by decide) (by decide) (by decide) (by decide) (by decide) rfl

/-! ## Health gate (`pkg/health`, `Checker.Check`)

The probe bodies (`checkHTTP`, `checkTCP`) perform network I/O; they are
abstracted as an oracle `probe : Nat → Option String` giving the outcome of
the k-th attempt (`none` = success, `some msg` = the probe error) and a
duration oracle `probeDur` in nanoseconds.  The caller's context is a
cancellation instant `cancelAt` on the same clock; each
`select {time.After, ctx.Done}` is the cancellable wait `cwait`. -/

/-- `health.CheckOptions`.  The Go field `Type` is rendered `checkType`;
durations are nanoseconds. -/
structure CheckOptions where
  checkType : String
  host : String
  port : Nat
  path : String
  timeout : Nat
  interval : Nat
  retries : Nat
  startPeriod : Nat
deriving Repr, DecidableEq, Inhabited

/-- Observable events of one `Check` run: the start-period wait, the
inter-retry waits, the probe attempts (0-based). -/
inductive HcEv where
  | startWait (d : Nat)
  | intervalWait (d : Nat)
  | probe (i : Nat)
deriving Repr, DecidableEq

/-- The three ways `Check` fails: `ctx.Err()`, the unsupported-type error,
`fmt.Errorf("health check failed: %w", lastErr)`. -/
inductive HcErr where
  | cancelled
  | unsupported (t : String)
  | failed (last : Option String)
deriving Repr, DecidableEq

/-- A `select { case <-time.After(d): case <-ctx.Done(): }` starting at
instant `t`: if the context cancels strictly before the timer fires the
select returns at the cancellation instant (immediately, if already
cancelled); otherwise at `t + d`.  Returns (cancelled?, return instant). -/
def cwait (cancelAt : Option Nat) (t d : Nat) : Bool × Nat :=
  match cancelAt with
  | some c => if c < t + d then (true, max t c) else (false, t + d)
  | none => (false, t + d)

/-- The `for attempt := 0; attempt < options.Retries; attempt++` loop of
`Check`, with `rem` the remaining iterations, carrying `lastErr`, the clock
and the event trace. -/
def hcLoop (opts : CheckOptions) (probe : Nat → Option String)
    (probeDur : Nat → Nat) (cancelAt : Option Nat) :
    Nat → Nat → Option String → Nat → List HcEv →
      (Except HcErr Unit × List HcEv × Nat)
  | 0, _, lastErr, t, tr => (Except.error (.failed lastErr), tr, t)
  | rem+1, attempt, _lastErr, t, tr =>
    match
      (if attempt > 0 then
        match cwait cancelAt t opts.interval with
        | (b, t2) => (b, t2, tr ++ [HcEv.intervalWait opts.interval])
      else (false, t, tr) : Bool × Nat × List HcEv) with
    | (true, t2, tr2) => (Except.error HcErr.cancelled, tr2, t2)
    | (false, t2, tr2) =>
      if opts.checkType = "http" ∨ opts.checkType = "tcp" then
        match probe attempt with
        | none => (Except.ok (), tr2 ++ [HcEv.probe attempt], t2 + probeDur attempt)
        | some e =>
            hcLoop opts probe probeDur cancelAt rem (attempt + 1) (some e)
              (t2 + probeDur attempt) (tr2 ++ [HcEv.probe attempt])
      else (Except.error (.unsupported opts.checkType), tr2, t2)

/-- `Check` (the health checker): wait out the start period (cancellable),
then retry the probe up to `retries` times with a cancellable `interval`
wait before every attempt but the first. -/
def Check (opts : CheckOptions) (probe : Nat → Option String)
    (probeDur : Nat → Nat) (cancelAt : Option Nat) :
    Except HcErr Unit × List HcEv × Nat :=
  if opts.startPeriod > 0 then
    match cwait cancelAt 0 opts.startPeriod with
    | (true, t1) =>
        (Except.error HcErr.cancelled, [HcEv.startWait opts.startPeriod], t1)
    | (false, t1) =>
        hcLoop opts probe probeDur cancelAt opts.retries 0 none t1
          [HcEv.startWait opts.startPeriod]
  else hcLoop opts probe probeDur cancelAt opts.retries 0 none 0 []

def isProbeEv : HcEv → Bool
  | .probe _ => true
  | _ => false

def isIntervalEv : HcEv → Bool
  | .intervalWait _ => true
  | _ => false

theorem hcIf_pos {opts : CheckOptions}
    (htype : opts.checkType = "http" ∨ opts.checkType = "tcp")
    {α : Sort _} (x y : α) :
    (if opts.checkType = "http" ∨ opts.checkType = "tcp" then x else y) = x :=
  if_pos htype

theorem hcLoop_all_fail {opts : CheckOptions} {probe : Nat → Option String}
    {probeDur : Nat → Nat}
    (htype : opts.checkType = "http" ∨ opts.checkType = "tcp") :
    ∀ rem attempt lastErr t tr, 1 ≤ rem →
      (∀ k, attempt ≤ k → k < attempt + rem → probe k ≠ none) →
      ∃ tr' t',
        hcLoop opts probe probeDur none rem attempt lastErr t tr =
          (Except.error (.failed (probe (attempt + rem - 1))), tr ++ tr', t') ∧
        (tr'.filter isProbeEv).length = rem ∧
        (tr'.filter isIntervalEv).length =
          (if attempt = 0 then rem - 1 else rem) := by
  intro rem
  induction rem with
  | zero => intro attempt lastErr t tr h1; omega
  | succ r ih =>
    intro attempt lastErr t tr _ hfail
    have hp0 : probe attempt ≠ none :=
      hfail attempt (Nat.le_refl _) (by omega)
    cases hp : probe attempt with
    | none => exact absurd hp hp0
    | some e =>
      cases attempt with
      | zero =>
        have hstep : hcLoop opts probe probeDur none (r + 1) 0 lastErr t tr =
            hcLoop opts probe probeDur none r 1 (some e) (t + probeDur 0)
              (tr ++ [HcEv.probe 0]) := by
          simp [hcLoop, hcIf_pos htype, hp]
        rw [hstep]
        cases r with
        | zero =>
          refine ⟨[HcEv.probe 0], t + probeDur 0, ?_, by simp [isProbeEv], ?_⟩
          · simp [hcLoop, hp]
          · simp [isIntervalEv]
        | succ r' =>
          obtain ⟨tr2, t2, heq, hpc, hic⟩ :=
            ih 1 (some e) (t + probeDur 0) (tr ++ [HcEv.probe 0])
              (by omega) (fun k hk1 hk2 => hfail k (by omega) (by omega))
          refine ⟨[HcEv.probe 0] ++ tr2, t2, ?_, ?_, ?_⟩
          · rw [heq]
            simp
          · simp only [List.filter_append, List.length_append, hpc]
            simp [isProbeEv] <;> omega
          · rw [if_neg (by omega : ¬ (1 : Nat) = 0)] at hic
            simp only [List.filter_append, List.length_append, hic]
            simp [isIntervalEv] <;> omega
      | succ a =>
        have hstep : hcLoop opts probe probeDur none (r + 1) (a + 1) lastErr t
              tr =
            hcLoop opts probe probeDur none r (a + 2) (some e)
              (t + opts.interval + probeDur (a + 1))
              ((tr ++ [HcEv.intervalWait opts.interval]) ++
                [HcEv.probe (a + 1)]) := by
          simp [hcLoop, cwait, hcIf_pos htype, hp]
        rw [hstep]
        cases r with
        | zero =>
          refine ⟨[HcEv.intervalWait opts.interval, HcEv.probe (a + 1)],
            t + opts.interval + probeDur (a + 1), ?_, ?_, ?_⟩
          · simp [hcLoop, hp]
          · simp [isProbeEv, isIntervalEv]
          · simp [isProbeEv, isIntervalEv]
        | succ r' =>
          obtain ⟨tr2, t2, heq, hpc, hic⟩ :=
            ih (a + 2) (some e) (t + opts.interval + probeDur (a + 1))
              ((tr ++ [HcEv.intervalWait opts.interval]) ++ [HcEv.probe (a + 1)])
              (by omega) (fun k hk1 hk2 => hfail k (by omega) (by omega))
          refine ⟨[HcEv.intervalWait opts.interval, HcEv.probe (a + 1)] ++ tr2,
            t2, ?_, ?_, ?_⟩
          · rw [heq]
            have : probe (a + 1 + (r' + 1 + 1) - 1) = probe (a + 2 + (r' + 1) - 1) := by
              congr 1
              omega
            rw [this]
            simp
          · simp only [List.filter_append, List.length_append, hpc]
            simp [isProbeEv, isIntervalEv] <;> omega
          · rw [if_neg (by omega : ¬ a + 2 = 0)] at hic
            simp only [List.filter_append, List.length_append, hic]
            simp [isProbeEv, isIntervalEv] <;> omega

theorem hcLoop_first_success {opts : CheckOptions} {probe : Nat → Option String}
    {probeDur : Nat → Nat}
    (htype : opts.checkType = "http" ∨ opts.checkType = "tcp") :
    ∀ m rem attempt lastErr t tr, m < rem →
      (∀ j, j < m → probe (attempt + j) ≠ none) →
      probe (attempt + m) = none →
      ∃ tr' t',
        hcLoop opts probe probeDur none rem attempt lastErr t tr =
          (Except.ok (), tr ++ tr', t') ∧
        (tr'.filter isProbeEv).length = m + 1 ∧
        (tr'.filter isIntervalEv).length =
          (if attempt = 0 then m else m + 1) ∧
        (tr ++ tr').getLast? = some (HcEv.probe (attempt + m)) := by
  intro m
  induction m with
  | zero =>
    intro rem attempt lastErr t tr hm _ hsucc
    obtain ⟨r, rfl⟩ : ∃ r, rem = r + 1 := ⟨rem - 1, by omega⟩
    rw [Nat.add_zero] at hsucc
    cases attempt with
    | zero =>
      refine ⟨[HcEv.probe 0], t + probeDur 0, ?_, by simp [isProbeEv], ?_, ?_⟩
      · simp [hcLoop, hcIf_pos htype, hsucc]
      · simp [isIntervalEv]
      · simp
    | succ a =>
      refine ⟨[HcEv.intervalWait opts.interval, HcEv.probe (a + 1)],
        t + opts.interval + probeDur (a + 1), ?_, ?_, ?_, ?_⟩
      · simp [hcLoop, cwait, hcIf_pos htype, hsucc]
      · simp [isProbeEv, isIntervalEv]
      · simp [isProbeEv, isIntervalEv]
      · simp
  | succ m ih =>
    intro rem attempt lastErr t tr hm hfail hsucc
    obtain ⟨r, rfl⟩ : ∃ r, rem = r + 1 := ⟨rem - 1, by omega⟩
    have hp0 : probe attempt ≠ none := by
      have := hfail 0 (by omega)
      simpa using this
    cases hp : probe attempt with
    | none => exact absurd hp hp0
    | some e =>
      have hsucc' : probe (attempt + 1 + m) = none := by
        have : attempt + 1 + m = attempt + (m + 1) := by omega
        rw [this]
        exact hsucc
      have hfail' : ∀ j, j < m → probe (attempt + 1 + j) ≠ none := by
        intro j hj
        have : attempt + 1 + j = attempt + (j + 1) := by omega
        rw [this]
        exact hfail (j + 1) (by omega)
      cases attempt with
      | zero =>
        have hstep : hcLoop opts probe probeDur none (r + 1) 0 lastErr t tr =
            hcLoop opts probe probeDur none r 1 (some e) (t + probeDur 0)
              (tr ++ [HcEv.probe 0]) := by
          simp [hcLoop, hcIf_pos htype, hp]
        rw [hstep]
        obtain ⟨tr2, t2, heq, hpc, hic, hlast⟩ :=
          ih r 1 (some e) (t + probeDur 0) (tr ++ [HcEv.probe 0])
            (by omega) hfail' hsucc'
        refine ⟨[HcEv.probe 0] ++ tr2, t2, ?_, ?_, ?_, ?_⟩
        · rw [heq]; simp
        · simp only [List.filter_append, List.length_append, hpc]
          simp [isProbeEv] <;> omega
        · rw [if_neg (by omega : ¬ (1 : Nat) = 0)] at hic
          simp only [List.filter_append, List.length_append, hic]
          simp [isIntervalEv] <;> omega
        · rw [← List.append_assoc]
          have harr : (1 : Nat) + m = 0 + (m + 1) := by omega
          rw [← harr]
          exact hlast
      | succ a =>
        have hstep : hcLoop opts probe probeDur none (r + 1) (a + 1) lastErr t
              tr =
            hcLoop opts probe probeDur none r (a + 2) (some e)
              (t + opts.interval + probeDur (a + 1))
              ((tr ++ [HcEv.intervalWait opts.interval]) ++
                [HcEv.probe (a + 1)]) := by
          simp [hcLoop, cwait, hcIf_pos htype, hp]
        rw [hstep]
        obtain ⟨tr2, t2, heq, hpc, hic, hlast⟩ :=
          ih r (a + 2) (some e) (t + opts.interval + probeDur (a + 1))
            ((tr ++ [HcEv.intervalWait opts.interval]) ++ [HcEv.probe (a + 1)])
            (by omega) hfail' hsucc'
        refine ⟨[HcEv.intervalWait opts.interval, HcEv.probe (a + 1)] ++ tr2,
          t2, ?_, ?_, ?_, ?_⟩
        · rw [heq]; simp
        · simp only [List.filter_append, List.length_append, hpc]
          simp [isProbeEv, isIntervalEv] <;> omega
        · rw [if_neg (by omega : ¬ a + 2 = 0)] at hic
          simp only [List.filter_append, List.length_append, hic]
          simp [isProbeEv, isIntervalEv] <;> omega
        · have harr : a + 2 + m = a + 1 + (m + 1) := by omega
          rw [harr] at hlast
          have hre : tr ++ ([HcEv.intervalWait opts.interval,
                HcEv.probe (a + 1)] ++ tr2) =
              ((tr ++ [HcEv.intervalWait opts.interval]) ++
                [HcEv.probe (a + 1)]) ++ tr2 := by
            simp
          rw [hre]
          exact hlast

/-- C6: with `retries = n > 0` and a supported probe type, `Check` makes at
most `n` probe attempts, waits `interval` between consecutive attempts and
never before the first; the first successful probe returns success
immediately (the trace ends at that probe); and if all `n` probes fail it
makes exactly `n` attempts and `n - 1` inter-attempt waits and returns
`fmt.Errorf("health check failed: %w", lastErr)` wrapping the last probe
error. -/
theorem c6_health_gate_retry_discipline
    (opts : CheckOptions) (probe : Nat → Option String) (probeDur : Nat → Nat)
    (n : Nat) (hn : opts.retries = n) (hpos : 0 < n)
    (htype : opts.checkType = "http" ∨ opts.checkType = "tcp") :
    ((((Check opts probe probeDur none).2.1.filter isProbeEv).length ≤ n) ∧
     ((∀ k, k < n → probe k ≠ none) →
       (Check opts probe probeDur none).1 =
         Except.error (.failed (probe (n - 1))) ∧
       (((Check opts probe probeDur none).2.1.filter isProbeEv).length = n) ∧
       (((Check opts probe probeDur none).2.1.filter isIntervalEv).length =
         n - 1)) ∧
     (∀ k, k < n → (∀ j, j < k → probe j ≠ none) → probe k = none →
       (Check opts probe probeDur none).1 = Except.ok () ∧
       (((Check opts probe probeDur none).2.1.filter isProbeEv).length =
         k + 1) ∧
       (((Check opts probe probeDur none).2.1.filter isIntervalEv).length =
         k) ∧
       (Check opts probe probeDur none).2.1.getLast? =
         some (HcEv.probe k))) := by
  classical
  obtain ⟨tr0, t1, hred, hz1, hz2⟩ :
      ∃ tr0 t1,
        Check opts probe probeDur none =
          hcLoop opts probe probeDur none opts.retries 0 none t1 tr0 ∧
        (tr0.filter isProbeEv).length = 0 ∧
        (tr0.filter isIntervalEv).length = 0 := by
    by_cases hsp : opts.startPeriod > 0
    · refine ⟨[HcEv.startWait opts.startPeriod], opts.startPeriod, ?_,
        by simp [isProbeEv], by simp [isIntervalEv]⟩
      simp [Check, cwait, hsp]
    · exact ⟨[], 0, by simp [Check, hsp], rfl, rfl⟩
  rw [hn] at hred
  have hfailCase : (∀ k, k < n → probe k ≠ none) →
      (Check opts probe probeDur none).1 =
        Except.error (.failed (probe (n - 1))) ∧
      (((Check opts probe probeDur none).2.1.filter isProbeEv).length = n) ∧
      (((Check opts probe probeDur none).2.1.filter isIntervalEv).length =
        n - 1) := by
    intro hall
    obtain ⟨tr', t', heq, hpc, hic⟩ :=
      hcLoop_all_fail htype n 0 none t1 tr0 hpos
        (fun k _ hk2 => hall k (by omega))
    rw [hred, heq]
    refine ⟨by simp, ?_, ?_⟩
    · simp [List.filter_append, hz1, hpc]
    · rw [if_pos rfl] at hic
      simp [List.filter_append, hz2, hic]
  have hsuccCase : ∀ k, k < n → (∀ j, j < k → probe j ≠ none) →
      probe k = none →
      (Check opts probe probeDur none).1 = Except.ok () ∧
      (((Check opts probe probeDur none).2.1.filter isProbeEv).length =
        k + 1) ∧
      (((Check opts probe probeDur none).2.1.filter isIntervalEv).length =
        k) ∧
      (Check opts probe probeDur none).2.1.getLast? =
        some (HcEv.probe k) := by
    intro k hk hbefore hsucc
    obtain ⟨tr', t', heq, hpc, hic, hlast⟩ :=
      hcLoop_first_success htype k n 0 none t1 tr0 hk
        (fun j hj => by simpa using hbefore j hj) (by simpa using hsucc)
    rw [hred, heq]
    refine ⟨by simp, ?_, ?_, ?_⟩
    · simp [List.filter_append, hz1, hpc]
    · rw [if_pos rfl] at hic
      simp [List.filter_append, hz2, hic]
    · simpa using hlast
  refine ⟨?_, hfailCase, hsuccCase⟩
  by_cases hex : ∃ k, k < n ∧ probe k = none
  · obtain ⟨hkn, hksucc⟩ := Nat.find_spec hex
    have hmin : ∀ j, j < Nat.find hex → probe j ≠ none := by
      intro j hj hcontra
      exact Nat.find_min hex hj ⟨by omega, hcontra⟩
    have := hsuccCase (Nat.find hex) hkn hmin hksucc
    rw [this.2.1]
    omega
  · push_neg at hex
    have hall : ∀ k, k < n → probe k ≠ none := fun k hk hc => by
      have := hex k hk
      exact this hc
    have := hfailCase hall
    rw [this.2.1]

/-- Witness for C6 at the spec's §8 example: `retries = 3`, always-failing
probe. -/
theorem c6_witness :
    ((((Check ⟨"http", "h", 80, "/", 5, 7, 3, 0⟩ (fun _ => some "boom")
          (fun _ => 1) none).2.1.filter isProbeEv).length ≤ 3) ∧
     ((∀ k, k < 3 → (fun _ => some "boom") k ≠ none) →
       (Check ⟨"http", "h", 80, "/", 5, 7, 3, 0⟩ (fun _ => some "boom")
          (fun _ => 1) none).1 =
         Except.error (.failed ((fun _ => some "boom") (3 - 1))) ∧
       (((Check ⟨"http", "h", 80, "/", 5, 7, 3, 0⟩ (fun _ => some "boom")
          (fun _ => 1) none).2.1.filter isProbeEv).length = 3) ∧
       (((Check ⟨"http", "h", 80, "/", 5, 7, 3, 0⟩ (fun _ => some "boom")
          (fun _ => 1) none).2.1.filter isIntervalEv).length = 3 - 1)) ∧
     (∀ k, k < 3 → (∀ j, j < k → (fun _ => some "boom") j ≠ none) →
       (fun _ => some "boom") k = none →
       (Check ⟨"http", "h", 80, "/", 5, 7, 3, 0⟩ (fun _ => some "boom")
          (fun _ => 1) none).1 = Except.ok () ∧
       (((Check ⟨"http", "h", 80, "/", 5, 7, 3, 0⟩ (fun _ => some "boom")
          (fun _ => 1) none).2.1.filter isProbeEv).length = k + 1) ∧
       (((Check ⟨"http", "h", 80, "/", 5, 7, 3, 0⟩ (fun _ => some "boom")
          (fun _ => 1) none).2.1.filter isIntervalEv).length = k) ∧
       (Check ⟨"http", "h", 80, "/", 5, 7, 3, 0⟩ (fun _ => some "boom")
          (fun _ => 1) none).2.1.getLast? = some (HcEv.probe k))) :=
  c6_health_gate_retry_discipline ⟨"http", "h", 80, "/", 5, 7, 3, 0⟩
    (fun _ => some "boom") (fun _ => 1) 3 rfl (by decide) (Or.inl rfl)

/-! ## External verifier (`pkg/end/external.go`)

`v.client.Do` is abstracted as an outcome oracle per attempt (transport
error or an HTTP status code); `http.NewRequestWithContext` failure as
`reqErr`.  Durations are nanoseconds; `time.Sleep` advances the clock
unconditionally — it is *not* a cancellable wait, unlike the health gate's
`select`-based waits.  The cancellation context is only polled by the
`select { case <-ctx.Done(): ... default: }` at the top of each attempt. -/

inductive EpOutcome where
  | transportError (msg : String)
  | status (code : Nat)
deriving Repr, DecidableEq

/-- Events of one `checkEndpoint` run: the attempts (1-based, as in the Go
loop) and the un-cancellable backoff sleeps. -/
inductive EpEv where
  | attempt (i : Nat)
  | sleep (d : Nat)
deriving Repr, DecidableEq

inductive EpErr where
  | cancelled
  | requestBuild (msg : String)
  | exhausted (attempts : Nat)
deriving Repr, DecidableEq

/-- The messages `checkEndpoint` can return: `ctx.Err()`, the request-build
error, and `fmt.Errorf("endpoint verification failed after %d attempts",
maxAttempts)` — note the URL is *not* part of the message. -/
def endpointErrorMessage : EpErr → String
  | .cancelled => "context canceled"
  | .requestBuild m => m
  | .exhausted n => "endpoint verification failed after " ++ toString n ++ " attempts"

/-- Whether `ctx.Done()` is already closed at instant `t`. -/
def ctxDone (cancelAt : Option Nat) (t : Nat) : Bool :=
  match cancelAt with
  | some c => decide (c ≤ t)
  | none => false

/-- The `for attempt := 1; attempt <= maxAttempts; attempt++` loop of
`checkEndpoint`, carrying the current `waitTime` (ns), the clock and the
event trace.  On failure the code sleeps the full current wait (no
cancellation check inside the sleep), then multiplies the wait by 1.5
(`waitTime = waitTime + waitTime/2`). -/
def ceLoop (outcome : Nat → EpOutcome) (probeDur : Nat → Nat)
    (reqErr : Option String) (cancelAt : Option Nat) (maxAttempts : Nat) :
    Nat → Nat → Nat → Nat → List EpEv → (Except EpErr Unit × List EpEv × Nat)
  | 0, _, _, t, tr => (Except.error (.exhausted maxAttempts), tr, t)
  | rem+1, attempt, wait, t, tr =>
    if ctxDone cancelAt t then (Except.error .cancelled, tr, t)
    else
      match reqErr with
      | some m => (Except.error (.requestBuild m), tr, t)
      | none =>
        match outcome attempt with
        | .status code =>
          if 200 ≤ code ∧ code < 300 then
            (Except.ok (), tr ++ [EpEv.attempt attempt], t + probeDur attempt)
          else
            ceLoop outcome probeDur reqErr cancelAt maxAttempts rem
              (attempt + 1) (wait + wait / 2) (t + probeDur attempt + wait)
              ((tr ++ [EpEv.attempt attempt]) ++ [EpEv.sleep wait])
        | .transportError _ =>
            ceLoop outcome probeDur reqErr cancelAt maxAttempts rem
              (attempt + 1) (wait + wait / 2) (t + probeDur attempt + wait)
              ((tr ++ [EpEv.attempt attempt]) ++ [EpEv.sleep wait])

/-- `checkEndpoint` started at instant `t0` (the Go function reads the
ambient clock; `VerifyExternalAccess` threads it through). -/
def checkEndpointFrom (outcome : Nat → EpOutcome) (probeDur : Nat → Nat)
    (reqErr : Option String) (cancelAt : Option Nat)
    (maxAttempts initialWaitSeconds t0 : Nat) :
    Except EpErr Unit × List EpEv × Nat :=
  ceLoop outcome probeDur reqErr cancelAt maxAttempts maxAttempts 1
    (initialWaitSeconds * 1000000000) t0 []

/-- `checkEndpoint(ctx, url, maxAttempts, initialWaitSeconds)`.  The URL
plays no role in the control flow or in the returned error value. -/
def checkEndpoint (outcome : Nat → EpOutcome) (probeDur : Nat → Nat)
    (reqErr : Option String) (cancelAt : Option Nat) (_url : String)
    (maxAttempts initialWaitSeconds : Nat) :
    Except EpErr Unit × List EpEv × Nat :=
  checkEndpointFrom outcome probeDur reqErr cancelAt maxAttempts
    initialWaitSeconds 0

/-- The sleep durations of a trace, in order. -/
def sleepsOf : List EpEv → List Nat
  | [] => []
  | EpEv.sleep d :: rest => d :: sleepsOf rest
  | EpEv.attempt _ :: rest => sleepsOf rest

def hasAttemptEv (tr : List EpEv) : Bool :=
  tr.any (fun e => match e with | .attempt _ => true | _ => false)

/-- The sleeps that happen *between* two attempts (i.e. those followed by a
later attempt), dropping the trailing sleep after the final attempt. -/
def interAttemptWaits : List EpEv → List Nat
  | [] => []
  | EpEv.sleep d :: rest =>
    if hasAttemptEv rest then d :: interAttemptWaits rest
    else interAttemptWaits rest
  | EpEv.attempt _ :: rest => interAttemptWaits rest

/-- An outcome on which `checkEndpoint` retries: a transport error or a
non-2xx status. -/
def IsFailureOutcome : EpOutcome → Prop
  | .transportError _ => True
  | .status code => code < 200 ∨ 300 ≤ code

/-- The URL of an app: `protocol://[subdomain.]domain[path]`. -/
def appUrl (cfg : Config) (app : App) : String :=
  let protocol := if cfg.ssl.enabled then "https" else "http"
  let url :=
    if app.subdomain = "" then protocol ++ "://" ++ cfg.domain
    else protocol ++ "://" ++ app.subdomain ++ "." ++ cfg.domain
  if app.path ≠ "" ∧ app.path ≠ "/" then url ++ app.path else url

/-- The health path used for the additional probe (defaults to "/"). -/
def appHealthPath (app : App) : String :=
  if app.healthCheck.checkType = "http" ∧ app.healthCheck.path ≠ "" then
    app.healthCheck.path
  else "/"

/-- The wrapping errors of `VerifyExternalAccess` — these (unlike
`checkEndpoint`'s own error) carry the app name and the URL. -/
inductive VerifyErr where
  | appUnreachable (name url : String) (inner : EpErr)
  | healthUnreachable (name url : String) (inner : EpErr)
deriving Repr, DecidableEq

def verifyErrorMessage : VerifyErr → String
  | .appUnreachable n u e =>
      "external verification failed for app " ++ n ++ " at " ++ u ++ ": " ++
        endpointErrorMessage e
  | .healthUnreachable n u e =>
      "health check verification failed for app " ++ n ++ " at " ++ u ++ ": " ++
        endpointErrorMessage e

/-- The `for _, app := range v.config.Apps` loop of `VerifyExternalAccess`,
threading the clock; fails fast on the first unreachable URL. -/
def verifyApps (cfg : Config) (outcome : String → Nat → EpOutcome)
    (probeDur : String → Nat → Nat) (reqErr : String → Option String)
    (cancelAt : Option Nat) :
    List App → Nat → Except VerifyErr Unit × Nat
  | [], t => (Except.ok (), t)
  | app :: rest, t =>
    let url := appUrl cfg app
    match checkEndpointFrom (outcome url) (probeDur url) (reqErr url) cancelAt
        5 3 t with
    | (Except.error e, _, t2) => (Except.error (.appUnreachable app.name url e), t2)
    | (Except.ok _, _, t2) =>
      let hp := appHealthPath app
      if hp ≠ "/" ∧ hp ≠ "" then
        let hurl := url ++ hp
        match checkEndpointFrom (outcome hurl) (probeDur hurl) (reqErr hurl)
            cancelAt 5 3 t2 with
        | (Except.error e, _, t3) =>
            (Except.error (.healthUnreachable app.name hurl e), t3)
        | (Except.ok _, _, t3) => verifyApps cfg outcome probeDur reqErr cancelAt rest t3
      else verifyApps cfg outcome probeDur reqErr cancelAt rest t2

/-- `VerifyExternalAccess(ctx)`: probe every app's public URL (and health
URL when distinct), with `maxAttempts = 5`, `initialWait = 3s`. -/
def VerifyExternalAccess (cfg : Config) (outcome : String → Nat → EpOutcome)
    (probeDur : String → Nat → Nat) (reqErr : String → Option String)
    (cancelAt : Option Nat) : Except VerifyErr Unit × Nat :=
  verifyApps cfg outcome probeDur reqErr cancelAt cfg.apps 0

theorem ceLoop_fail_step {outcome : Nat → EpOutcome} {probeDur : Nat → Nat}
    {maxA attempt : Nat} (hf : IsFailureOutcome (outcome attempt))
    (rem wait t : Nat) (tr : List EpEv) :
    ceLoop outcome probeDur none none maxA (rem + 1) attempt wait t tr =
      ceLoop outcome probeDur none none maxA rem (attempt + 1)
        (wait + wait / 2) (t + probeDur attempt + wait)
        ((tr ++ [EpEv.attempt attempt]) ++ [EpEv.sleep wait]) := by
  cases ho : outcome attempt with
  | transportError m => simp [ceLoop, ctxDone, ho]
  | status code =>
    have hf2 : code < 200 ∨ 300 ≤ code := by
      rw [ho] at hf
      exact hf
    have hfact : ¬(200 ≤ code ∧ code < 300) := by omega
    simp [ceLoop, ctxDone, ho, hfact]

/-- A full always-failing `checkEndpoint` run from any start instant: five
attempts, the exact backoff trace, the attempts-exhausted error. -/
theorem ceLoop_all_fail_run (oc : Nat → EpOutcome) (pd : Nat → Nat)
    (hf : ∀ i, IsFailureOutcome (oc i)) (t0 : Nat) :
    ceLoop oc pd none none 5 5 1 3000000000 t0 [] =
      (Except.error (.exhausted 5),
       [EpEv.attempt 1, EpEv.sleep 3000000000, EpEv.attempt 2,
        EpEv.sleep 4500000000, EpEv.attempt 3, EpEv.sleep 6750000000,
        EpEv.attempt 4, EpEv.sleep 10125000000, EpEv.attempt 5,
        EpEv.sleep 15187500000],
       t0 + pd 1 + 3000000000 + pd 2 + 4500000000 + pd 3 + 6750000000 +
         pd 4 + 10125000000 + pd 5 + 15187500000) := by
  have h1 : ceLoop oc pd none none 5 5 1 3000000000 t0 [] =
      ceLoop oc pd none none 5 4 2 4500000000 (t0 + pd 1 + 3000000000)
        [EpEv.attempt 1, EpEv.sleep 3000000000] :=
    ceLoop_fail_step (hf 1) 4 3000000000 t0 []
  have h2 : ceLoop oc pd none none 5 4 2 4500000000 (t0 + pd 1 + 3000000000)
        [EpEv.attempt 1, EpEv.sleep 3000000000] =
      ceLoop oc pd none none 5 3 3 6750000000
        (t0 + pd 1 + 3000000000 + pd 2 + 4500000000)
        [EpEv.attempt 1, EpEv.sleep 3000000000, EpEv.attempt 2,
          EpEv.sleep 4500000000] :=
    ceLoop_fail_step (hf 2) 3 4500000000 _ _
  have h3 : ceLoop oc pd none none 5 3 3 6750000000
        (t0 + pd 1 + 3000000000 + pd 2 + 4500000000)
        [EpEv.attempt 1, EpEv.sleep 3000000000, EpEv.attempt 2,
          EpEv.sleep 4500000000] =
      ceLoop oc pd none none 5 2 4 10125000000
        (t0 + pd 1 + 3000000000 + pd 2 + 4500000000 + pd 3 + 6750000000)
        [EpEv.attempt 1, EpEv.sleep 3000000000, EpEv.attempt 2,
          EpEv.sleep 4500000000, EpEv.attempt 3, EpEv.sleep 6750000000] :=
    ceLoop_fail_step (hf 3) 2 6750000000 _ _
  have h4 : ceLoop oc pd none none 5 2 4 10125000000
        (t0 + pd 1 + 3000000000 + pd 2 + 4500000000 + pd 3 + 6750000000)
        [EpEv.attempt 1, EpEv.sleep 3000000000, EpEv.attempt 2,
          EpEv.sleep 4500000000, EpEv.attempt 3, EpEv.sleep 6750000000] =
      ceLoop oc pd none none 5 1 5 15187500000
        (t0 + pd 1 + 3000000000 + pd 2 + 4500000000 + pd 3 + 6750000000 +
          pd 4 + 10125000000)
        [EpEv.attempt 1, EpEv.sleep 3000000000, EpEv.attempt 2,
          EpEv.sleep 4500000000, EpEv.attempt 3, EpEv.sleep 6750000000,
          EpEv.attempt 4, EpEv.sleep 10125000000] :=
    ceLoop_fail_step (hf 4) 1 10125000000 _ _
  have h5 : ceLoop oc pd none none 5 1 5 15187500000
        (t0 + pd 1 + 3000000000 + pd 2 + 4500000000 + pd 3 + 6750000000 +
          pd 4 + 10125000000)
        [EpEv.attempt 1, EpEv.sleep 3000000000, EpEv.attempt 2,
          EpEv.sleep 4500000000, EpEv.attempt 3, EpEv.sleep 6750000000,
          EpEv.attempt 4, EpEv.sleep 10125000000] =
      ceLoop oc pd none none 5 0 6 22781250000
        (t0 + pd 1 + 3000000000 + pd 2 + 4500000000 + pd 3 + 6750000000 +
          pd 4 + 10125000000 + pd 5 + 15187500000)
        [EpEv.attempt 1, EpEv.sleep 3000000000, EpEv.attempt 2,
          EpEv.sleep 4500000000, EpEv.attempt 3, EpEv.sleep 6750000000,
          EpEv.attempt 4, EpEv.sleep 10125000000, EpEv.attempt 5,
          EpEv.sleep 15187500000] :=
    ceLoop_fail_step (hf 5) 0 15187500000 _ _
  rw [h1, h2, h3, h4, h5]
  rfl

/-- C5 (amended): for every URL probed by the external verifier with
`maxAttempts = 5`, `initialWait = 3s`, and every attempt failing, the waits
between consecutive attempts are exactly 3s, 4.5s, 6.75s, 10.125s
(`wait = wait + wait/2` after each failure, in nanoseconds), and after the
5 failed attempts `checkEndpoint` returns
`"endpoint verification failed after 5 attempts"` — a failure naming the
*attempt count only*.  The URL appears in the surfaced failure because
`VerifyExternalAccess` wraps it as
`"external verification failed for app %s at %s: %w"`; `checkEndpoint`'s
own error does not name the URL (`c5_counterexample`). -/
theorem c5_backoff_sequence_and_exhaustion
    (outcome : Nat → EpOutcome) (probeDur : Nat → Nat)
    (hfail : ∀ i, IsFailureOutcome (outcome i)) (url : String)
    (cfg : Config) (app : App) (happs : cfg.apps = [app])
    (outcome2 : String → Nat → EpOutcome)
    (hfail2 : ∀ u i, IsFailureOutcome (outcome2 u i))
    (probeDur2 : String → Nat → Nat) :
    (checkEndpoint outcome probeDur none none url 5 3).1 =
        Except.error (.exhausted 5) ∧
    interAttemptWaits (checkEndpoint outcome probeDur none none url 5 3).2.1 =
        [3000000000, 4500000000, 6750000000, 10125000000] ∧
    sleepsOf (checkEndpoint outcome probeDur none none url 5 3).2.1 =
        [3000000000, 4500000000, 6750000000, 10125000000, 15187500000] ∧
    endpointErrorMessage (.exhausted 5) =
        "endpoint verification failed after 5 attempts" ∧
    (VerifyExternalAccess cfg outcome2 probeDur2 (fun _ => none) none).1 =
        Except.error (.appUnreachable app.name (appUrl cfg app)
          (.exhausted 5)) ∧
    (appUrl cfg app).toList <:+:
      (verifyErrorMessage (.appUnreachable app.name (appUrl cfg app)
        (.exhausted 5))).toList := by
  have hrun := ceLoop_all_fail_run outcome probeDur hfail 0
  have hch : checkEndpoint outcome probeDur none none url 5 3 =
      ceLoop outcome probeDur none none 5 5 1 3000000000 0 [] := rfl
  refine ⟨?_, ?_, ?_, rfl, ?_, ?_⟩
  · rw [hch, hrun]
  · rw [hch, hrun]
    rfl
  · rw [hch, hrun]
    rfl
  · have hrun2 := ceLoop_all_fail_run (outcome2 (appUrl cfg app))
      (probeDur2 (appUrl cfg app)) (hfail2 _) 0
    unfold VerifyExternalAccess
    rw [happs]
    simp only [verifyApps, checkEndpointFrom]
    rw [hrun2]
  · show ∃ s t, s ++ (appUrl cfg app).toList ++ t = _
    refine ⟨("external verification failed for app " ++ app.name ++
      " at ").toList, (": " ++ endpointErrorMessage (.exhausted 5)).toList, ?_⟩
    simp [verifyErrorMessage, String.toList, String.data_append]

/-- Counterexample to C5 as frozen: `checkEndpoint`'s exhaustion failure
does not name the URL — its message is exactly
`"endpoint verification failed after 5 attempts"`, in which the probed URL
does not occur. -/
theorem c5_counterexample :
    (checkEndpoint (fun _ => EpOutcome.transportError "refused") (fun _ => 0)
        none none "https://app.example.com" 5 3).1 =
      Except.error (.exhausted 5) ∧
    endpointErrorMessage (EpErr.exhausted 5) =
      "endpoint verification failed after 5 attempts" ∧
    ¬ ("https://app.example.com".toList <:+:
        ("endpoint verification failed after 5 attempts").toList) :=
  ⟨by rfl, rfl, by decide⟩

/-- Witness for the amended C5. -/
theorem c5_witness :
    (checkEndpoint (fun _ => EpOutcome.transportError "x") (fun _ => 0) none
        none "https://a.example.com" 5 3).1 = Except.error (.exhausted 5) ∧
    interAttemptWaits (checkEndpoint (fun _ => EpOutcome.transportError "x")
        (fun _ => 0) none none "https://a.example.com" 5 3).2.1 =
      [3000000000, 4500000000, 6750000000, 10125000000] ∧
    sleepsOf (checkEndpoint (fun _ => EpOutcome.transportError "x")
        (fun _ => 0) none none "https://a.example.com" 5 3).2.1 =
      [3000000000, 4500000000, 6750000000, 10125000000, 15187500000] ∧
    endpointErrorMessage (.exhausted 5) =
      "endpoint verification failed after 5 attempts" ∧
    (VerifyExternalAccess
        ⟨"1", "example.com", ⟨false, "", "", false, false, ""⟩,
          ⟨"nginx", 80, 443⟩, [],
          [⟨"a", "i", "", "", [], [], [], [], default, ""⟩], 0, ""⟩
        (fun _ _ => EpOutcome.transportError "x") (fun _ _ => 0)
        (fun _ => none) none).1 =
      Except.error (.appUnreachable
        (⟨"a", "i", "", "", [], [], [], [], default, ""⟩ : App).name
        (appUrl
          ⟨"1", "example.com", ⟨false, "", "", false, false, ""⟩,
            ⟨"nginx", 80, 443⟩, [],
            [⟨"a", "i", "", "", [], [], [], [], default, ""⟩], 0, ""⟩
          ⟨"a", "i", "", "", [], [], [], [], default, ""⟩)
        (.exhausted 5)) ∧
    (appUrl
        ⟨"1", "example.com", ⟨false, "", "", false, false, ""⟩,
          ⟨"nginx", 80, 443⟩, [],
          [⟨"a", "i", "", "", [], [], [], [], default, ""⟩], 0, ""⟩
        ⟨"a", "i", "", "", [], [], [], [], default, ""⟩).toList <:+:
      (verifyErrorMessage (.appUnreachable
        (⟨"a", "i", "", "", [], [], [], [], default, ""⟩ : App).name
        (appUrl
          ⟨"1", "example.com", ⟨false, "", "", false, false, ""⟩,
            ⟨"nginx", 80, 443⟩, [],
            [⟨"a", "i", "", "", [], [], [], [], default, ""⟩], 0, ""⟩
          ⟨"a", "i", "", "", [], [], [], [], default, ""⟩)
        (.exhausted 5))).toList :=
  c5_backoff_sequence_and_exhaustion (fun _ => EpOutcome.transportError "x")
    (fun _ => 0) (fun _ => trivial) "https://a.example.com"
    ⟨"1", "example.com", ⟨false, "", "", false, false, ""⟩, ⟨"nginx", 80, 443⟩,
      [], [⟨"a", "i", "", "", [], [], [], [], default, ""⟩], 0, ""⟩
    ⟨"a", "i", "", "", [], [], [], [], default, ""⟩ rfl
    (fun _ _ => EpOutcome.transportError "x") (fun _ _ => trivial)
    (fun _ _ => 0)

/-- C3 (amended): the health gate's start-period and inter-retry waits are
cancellable `select`s — cancellation during either wait makes `Check` return
the cancellation error *at the cancellation instant* (promptly), never a
probe-failure error.  The external verifier's backoff delay, however, is a
plain `time.Sleep`: the context is polled only at the top of each attempt,
so a cancellation during the sleep is observed only once the full sleep has
elapsed (the call returns at the sleep's end, with the cancellation error)
— and when the sleep follows the *final* attempt, the call returns the
attempts-exhausted probe-failure error instead (`c3_counterexample`). -/
theorem c3_health_gate_waits_cancel_promptly_but_backoff_sleep_does_not
    (opts1 : CheckOptions) (probe1 : Nat → Option String)
    (probeDur1 : Nat → Nat) (c1 : Nat)
    (hsp1 : 0 < opts1.startPeriod) (hc1 : c1 < opts1.startPeriod)
    (opts2 : CheckOptions) (probe2 : Nat → Option String)
    (probeDur2 : Nat → Nat) (e2 : String) (c2 : Nat)
    (hsp2 : opts2.startPeriod = 0)
    (htype2 : opts2.checkType = "http" ∨ opts2.checkType = "tcp")
    (hret2 : 2 ≤ opts2.retries) (hp2 : probe2 0 = some e2)
    (hge2 : probeDur2 0 ≤ c2) (hlt2 : c2 < probeDur2 0 + opts2.interval)
    (oc : Nat → EpOutcome) (pd : Nat → Nat) (url : String) (c3 : Nat)
    (hf1 : IsFailureOutcome (oc 1))
    (hc3pos : 0 < c3) (hc3ge : pd 1 ≤ c3) (hc3lt : c3 < pd 1 + 3000000000) :
    Check opts1 probe1 probeDur1 (some c1) =
      (Except.error HcErr.cancelled, [HcEv.startWait opts1.startPeriod], c1) ∧
    Check opts2 probe2 probeDur2 (some c2) =
      (Except.error HcErr.cancelled,
        [HcEv.probe 0, HcEv.intervalWait opts2.interval], c2) ∧
    checkEndpoint oc pd none (some c3) url 2 3 =
      (Except.error EpErr.cancelled,
        [EpEv.attempt 1, EpEv.sleep 3000000000], pd 1 + 3000000000) ∧
    checkEndpoint oc pd none (some c3) url 1 3 =
      (Except.error (EpErr.exhausted 1),
        [EpEv.attempt 1, EpEv.sleep 3000000000], pd 1 + 3000000000) := by
  refine ⟨?_, ?_, ?_, ?_⟩
  · have hlt : c1 < 0 + opts1.startPeriod := by omega
    simp [Check, cwait, hsp1, hlt, hc1]
  · obtain ⟨r, hr⟩ : ∃ r, opts2.retries = r + 2 :=
      ⟨opts2.retries - 2, by omega⟩
    have hlt : c2 < 0 + probeDur2 0 + opts2.interval := by omega
    have hlt' : c2 < probeDur2 0 + opts2.interval := by omega
    have hmax : max (0 + probeDur2 0) c2 = c2 := by
      rw [Nat.max_eq_right]
      omega
    have hmax' : max (probeDur2 0) c2 = c2 := by
      rw [Nat.max_eq_right hge2]
    simp [Check, hsp2, hr, hcLoop, cwait, hcIf_pos htype2, hp2, hlt, hlt',
      hmax, hmax']
  · have hd1 : ¬(c3 ≤ 0) := by omega
    have hd2 : c3 ≤ 0 + pd 1 + 3000000000 := by omega
    have hd2' : c3 ≤ pd 1 + 3000000000 := by omega
    cases hoc : oc 1 with
    | transportError m =>
      simp [checkEndpoint, checkEndpointFrom, ceLoop, ctxDone, hoc, hd1, hd2,
        hd2']
    | status code =>
      have hf2 : code < 200 ∨ 300 ≤ code := by
        rw [hoc] at hf1
        exact hf1
      have hfact : ¬(200 ≤ code ∧ code < 300) := by omega
      simp [checkEndpoint, checkEndpointFrom, ceLoop, ctxDone, hoc, hd1, hd2,
        hd2', hfact]
  · have hd1 : ¬(c3 ≤ 0) := by omega
    cases hoc : oc 1 with
    | transportError m =>
      simp [checkEndpoint, checkEndpointFrom, ceLoop, ctxDone, hoc, hd1]
    | status code =>
      have hf2 : code < 200 ∨ 300 ≤ code := by
        rw [hoc] at hf1
        exact hf1
      have hfact : ¬(200 ≤ code ∧ code < 300) := by omega
      simp [checkEndpoint, checkEndpointFrom, ceLoop, ctxDone, hoc, hd1, hfact]

/-- Counterexample to C3 as frozen: a context cancelled at instant 1,
during the external verifier's first backoff sleep (which spans
`[0, 3s)` here), does not unblock the sleep — with `maxAttempts = 1` the
call runs the sleep to completion and returns the attempts-exhausted
probe-failure error at instant 3s, not a cancellation error. -/
theorem c3_counterexample :
    ((0 : Nat) < 1 ∧ (1 : Nat) < 3000000000) ∧
    checkEndpoint (fun _ => EpOutcome.transportError "x") (fun _ => 0) none
        (some 1) "u" 1 3 =
      (Except.error (EpErr.exhausted 1),
        [EpEv.attempt 1, EpEv.sleep 3000000000], 3000000000) :=
  ⟨by decide, by rfl⟩

/-- Witness for the amended C3. -/
theorem c3_witness :
    Check ⟨"http", "h", 80, "/", 5, 7, 3, 10⟩ (fun _ => some "e")
        (fun _ => 1) (some 4) =
      (Except.error HcErr.cancelled, [HcEv.startWait 10], 4) ∧
    Check ⟨"http", "h", 80, "/", 5, 7, 3, 0⟩ (fun _ => some "e")
        (fun _ => 1) (some 4) =
      (Except.error HcErr.cancelled,
        [HcEv.probe 0, HcEv.intervalWait 7], 4) ∧
    checkEndpoint (fun _ => EpOutcome.transportError "x") (fun _ => 1) none
        (some 5) "u" 2 3 =
      (Except.error EpErr.cancelled,
        [EpEv.attempt 1, EpEv.sleep 3000000000],
        (fun _ : Nat => 1) 1 + 3000000000) ∧
    checkEndpoint (fun _ => EpOutcome.transportError "x") (fun _ => 1) none
        (some 5) "u" 1 3 =
      (Except.error (EpErr.exhausted 1),
        [EpEv.attempt 1, EpEv.sleep 3000000000],
        (fun _ : Nat => 1) 1 + 3000000000) :=
  c3_health_gate_waits_cancel_promptly_but_backoff_sleep_does_not
    ⟨"http", "h", 80, "/", 5, 7, 3, 10⟩ (fun _ => some "e") (fun _ => 1) 4
    (by decide) (by decide)
    ⟨"http", "h", 80, "/", 5, 7, 3, 0⟩ (fun _ => some "e") (fun _ => 1) "e" 4
    rfl (Or.inl rfl) (by decide) rfl (by decide) (by decide)
    (fun _ => EpOutcome.transportError "x") (fun _ => 1) "u" 5 trivial
    (by decide) (by decide) (by decide)

/-! ## Deployment manager: registry, unit deploy and rollback
(`pkg/deployment/manager.go`)

The Docker collaborator's operations are outcome oracles; `m.deployments`
(a Go map keyed by unit name, mutated in place) is an association list of
records with unique names. -/

/-- `deployment.Deployment` (manager.go, lines 29–41).  `deployApp` /
`deployService` never fill `Volumes`, so it keeps its zero value. -/
structure Deployment where
  name : String
  containerID : String
  image : String
  createdAt : Nat
  serviceType : String
  dependsOn : List String
  healthCheck : HealthCheck
  volumes : List Volume
  environment : List (String × String)
  ports : List String
  restartPolicy : String
deriving Repr, DecidableEq, Inhabited

/-- `m.deployments[name]` (comma-ok lookup). -/
def lookupDeployment (reg : List Deployment) (n : String) : Option Deployment :=
  reg.find? (fun d => d.name == n)

inductive RbErr where
  | stopFailed (cid : String)
  | removeFailed (cid : String)
deriving Repr, DecidableEq

/-- `rollbackDeployment` (manager.go, lines 417–436): stop with a 10s grace
period, force-remove, and only then delete the registry record; a stop or
remove failure returns early and *keeps* the record. -/
def rollbackDeployment (stopFails removeFails : String → Bool)
    (reg : List Deployment) (dep : Deployment) :
    Except RbErr (List Deployment) :=
  if stopFails dep.containerID then Except.error (.stopFailed dep.containerID)
  else if removeFails dep.containerID then
    Except.error (.removeFailed dep.containerID)
  else Except.ok (reg.filter (fun d => !(d.name == dep.name)))

/-- One of `Rollback`'s two teardown loops over a list of configured unit
names: look each name up in the registry, attempt teardown of the found
record, collect (count) failures, never abort.  Returns the final registry,
the error count and the attempted names in order. -/
def rollbackLoop (stopFails removeFails : String → Bool) :
    List String → List Deployment → Nat → List String →
      (List Deployment × Nat × List String)
  | [], reg, errs, attempts => (reg, errs, attempts)
  | n :: rest, reg, errs, attempts =>
    match lookupDeployment reg n with
    | none => rollbackLoop stopFails removeFails rest reg errs attempts
    | some dep =>
      match rollbackDeployment stopFails removeFails reg dep with
      | Except.error _ =>
          rollbackLoop stopFails removeFails rest reg (errs + 1)
            (attempts ++ [n])
      | Except.ok reg2 =>
          rollbackLoop stopFails removeFails rest reg2 errs (attempts ++ [n])

/-- `reverseServices` (manager.go, lines 457–463): the copying loop is a
plain reversal. -/
def reverseServices (services : List Service) : List Service :=
  services.reverse

/-- `Rollback` (manager.go, lines 118–156): proxy cleanup (failure logged
only), tear down the registered *apps in declared config order*, then the
registered *services in reverse declared config order*; return an aggregate
error naming the failure count iff any teardown failed. -/
def Rollback (cfg : Config) (reg : List Deployment)
    (stopFails removeFails : String → Bool) (_proxyCleanupFails : Bool) :
    Except String Unit × List Deployment × List String :=
  match rollbackLoop stopFails removeFails (cfg.apps.map (fun a => a.name))
      reg 0 [] with
  | (reg1, errs1, attempts1) =>
    match rollbackLoop stopFails removeFails
        ((reverseServices cfg.services).map (fun s => s.name)) reg1 errs1
        attempts1 with
    | (reg2, errs2, attempts2) =>
      (if errs2 > 0 then
        Except.error ("rollback completed with " ++ toString errs2 ++ " errors")
      else Except.ok (), reg2, attempts2)

/-- The effects of one `deployApp` call, in program order. -/
inductive DaEv where
  | pull
  | scan
  | create
  | start
  | register
  | healthGate
deriving Repr, DecidableEq

/-- `deployApp` (manager.go, lines 310–396): pull → scan (advisory, never
aborts) → create → start → insert the registry record → health gate (only
when a health check is configured).  Oracles: `pullE`/`startE`/`healthE` are
`none` on success; `createE` yields the container id. -/
def deployApp (pullE : Option String) (_scanE : Except String Unit)
    (createE : Except String String) (startE : Option String)
    (healthE : Option String) (app : App) (reg : List Deployment)
    (now : Nat) : List Deployment × Except String Unit × List DaEv :=
  match pullE with
  | some e => (reg, Except.error ("failed to pull image: " ++ e), [DaEv.pull])
  | none =>
    match createE with
    | Except.error e =>
        (reg, Except.error ("failed to create container: " ++ e),
          [DaEv.pull, DaEv.scan, DaEv.create])
    | Except.ok cid =>
      match startE with
      | some e =>
          (reg, Except.error ("failed to start container: " ++ e),
            [DaEv.pull, DaEv.scan, DaEv.create, DaEv.start])
      | none =>
        let reg2 := reg ++ [⟨app.name, cid, app.image, now, "app",
          app.dependsOn, app.healthCheck, [], app.environment, app.ports,
          app.restartPolicy⟩]
        if app.healthCheck.checkType ≠ "" then
          match healthE with
          | some e =>
              (reg2, Except.error ("health check failed: " ++ e),
                [DaEv.pull, DaEv.scan, DaEv.create, DaEv.start, DaEv.register,
                  DaEv.healthGate])
          | none =>
              (reg2, Except.ok (),
                [DaEv.pull, DaEv.scan, DaEv.create, DaEv.start, DaEv.register,
                  DaEv.healthGate])
        else
          (reg2, Except.ok (),
            [DaEv.pull, DaEv.scan, DaEv.create, DaEv.start, DaEv.register])

/-! ### Rollback loop characterization -/

theorem lookupDeployment_filter {p : Deployment → Bool} {m : String} :
    ∀ {reg : List Deployment}, (∀ d ∈ reg, d.name = m → p d = true) →
    lookupDeployment (reg.filter p) m = lookupDeployment reg m := by
  intro reg
  induction reg with
  | nil => intro _; rfl
  | cons d rest ih =>
    intro h
    have ih' := ih (fun y hy hym => h y (List.mem_cons_of_mem _ hy) hym)
    by_cases hp : p d = true
    · rw [List.filter_cons, if_pos hp]
      unfold lookupDeployment
      rw [List.find?_cons, List.find?_cons]
      cases hb : (d.name == m) with
      | true => rfl
      | false => exact ih'
    · have hd : d.name ≠ m := by
        intro hc
        exact hp (h d (List.mem_cons_self d rest) hc)
      have hbeq : (d.name == m) = false := by simpa using hd
      rw [List.filter_cons, if_neg hp, ih']
      unfold lookupDeployment
      rw [List.find?_cons, hbeq]

theorem lookupDeployment_some {reg : List Deployment} {n : String}
    {dep : Deployment} (h : lookupDeployment reg n = some dep) :
    dep ∈ reg ∧ dep.name = n := by
  refine ⟨List.mem_of_find?_eq_some h, ?_⟩
  have := List.find?_some h
  simpa using this

theorem lookupDeployment_none {reg : List Deployment} {n : String}
    (h : lookupDeployment reg n = none) : ∀ d ∈ reg, d.name ≠ n := by
  intro d hd
  have := List.find?_eq_none.mp h d hd
  simpa using this

theorem name_unique {reg : List Deployment}
    (hR : (reg.map (fun d => d.name)).Nodup) {x y : Deployment}
    (hx : x ∈ reg) (hy : y ∈ reg) (hxy : x.name = y.name) : x = y :=
  List.inj_on_of_nodup_map hR hx hy hxy

theorem length_filter_update {α κ : Type} [DecidableEq κ] (key : α → κ) :
    ∀ (l : List α), ((l.map key).Nodup) → ∀ (p q : α → Bool) (x : α),
      x ∈ l → q x = true → p x = false →
      (∀ y ∈ l, key y ≠ key x → q y = p y) →
      (l.filter q).length = (l.filter p).length + 1 := by
  intro l
  induction l with
  | nil => intro _ p q x hx; simp at hx
  | cons a rest ih =>
    intro hnd p q x hx hq hp hagree
    rw [List.map_cons] at hnd
    have hnd' := List.nodup_cons.mp hnd
    by_cases hk : key a = key x
    · have hax : a = x := by
        rcases List.mem_cons.mp hx with rfl | hx2
        · rfl
        · exact absurd (hk ▸ List.mem_map_of_mem key hx2) hnd'.1
      subst hax
      rw [List.filter_cons, List.filter_cons, if_pos hq, if_neg (by simp [hp])]
      have hrest : rest.filter q = rest.filter p := by
        refine List.filter_congr ?_
        intro y hy
        refine hagree y (List.mem_cons_of_mem _ hy) ?_
        intro hc
        exact hnd'.1 (hc ▸ List.mem_map_of_mem key hy)
      rw [hrest]
      simp
    · have hx2 : x ∈ rest := by
        rcases List.mem_cons.mp hx with rfl | hx2
        · exact absurd rfl hk
        · exact hx2
      have haeq : q a = p a := hagree a (List.mem_cons_self a rest) hk
      rw [List.filter_cons, List.filter_cons, haeq]
      have := ih hnd'.2 p q x hx2 hq hp
        (fun y hy hyk => hagree y (List.mem_cons_of_mem _ hy) hyk)
      by_cases hpa : p a = true
      · rw [if_pos hpa, if_pos hpa]
        simp [this]
      · rw [if_neg hpa, if_neg hpa]
        exact this

theorem length_filter_disjoint_union {α : Type} :
    ∀ (l : List α) (p q : α → Bool), (∀ x ∈ l, ¬(p x = true ∧ q x = true)) →
      (l.filter (fun x => p x || q x)).length =
        (l.filter p).length + (l.filter q).length := by
  intro l
  induction l with
  | nil => intro p q _; rfl
  | cons a rest ih =>
    intro p q hdisj
    have hr := ih p q (fun x hx => hdisj x (List.mem_cons_of_mem _ hx))
    have ha := hdisj a (List.mem_cons_self a rest)
    rw [List.filter_cons, List.filter_cons, List.filter_cons]
    by_cases hp : p a = true
    · have hq : q a = false := by
        by_cases hq : q a = true
        · exact absurd ⟨hp, hq⟩ ha
        · simpa using hq
      rw [if_pos (by simp [hp]), if_pos hp, if_neg (by simp [hq])]
      simp [hr]
      omega
    · have hp' : p a = false := by simpa using hp
      by_cases hq : q a = true
      · rw [if_pos (by simp [hp', hq]), if_neg (by simp [hp']), if_pos hq]
        simp [hr]
        omega
      · have hq' : q a = false := by simpa using hq
        rw [if_neg (by simp [hp', hq']), if_neg (by simp [hp']),
          if_neg (by simp [hq'])]
        exact hr

theorem rollbackLoop_spec (stopF removeF : String → Bool) :
    ∀ (names : List String) (reg : List Deployment) (errs : Nat)
      (attempts : List String), names.Nodup →
      ((reg.map (fun d => d.name)).Nodup) →
      rollbackLoop stopF removeF names reg errs attempts =
        (reg.filter (fun d => !(names.contains d.name &&
            (!stopF d.containerID && !removeF d.containerID))),
         errs + (reg.filter (fun d => names.contains d.name &&
            (stopF d.containerID || removeF d.containerID))).length,
         attempts ++ names.filter (fun n => (lookupDeployment reg n).isSome)) := by
  intro names
  induction names with
  | nil =>
    intro reg errs attempts _ _
    simp [rollbackLoop]
  | cons n rest ih =>
    intro reg errs attempts hN hR
    have hN' := List.nodup_cons.mp hN
    have hnrest : (rest.contains n) = false := by simpa using hN'.1
    cases hlk : lookupDeployment reg n with
    | none =>
      have hnone := lookupDeployment_none hlk
      have hstep : rollbackLoop stopF removeF (n :: rest) reg errs attempts =
          rollbackLoop stopF removeF rest reg errs attempts := by
        simp [rollbackLoop, hlk]
      rw [hstep, ih reg errs attempts hN'.2 hR]
      simp only [Prod.mk.injEq]
      refine ⟨?_, ?_, ?_⟩
      · refine List.filter_congr ?_
        intro d hd
        have hdn : (d.name == n) = false := by simpa using hnone d hd
        rw [List.contains_cons, hdn]
        simp
      · have : reg.filter (fun d => rest.contains d.name &&
            (stopF d.containerID || removeF d.containerID)) =
            reg.filter (fun d => (n :: rest).contains d.name &&
              (stopF d.containerID || removeF d.containerID)) := by
          refine List.filter_congr ?_
          intro d hd
          have hdn : (d.name == n) = false := by simpa using hnone d hd
          rw [List.contains_cons, hdn]
          simp
        rw [this]
      · have hpn : ((lookupDeployment reg n).isSome) = false := by
          rw [hlk]; rfl
        rw [List.filter_cons, if_neg (by simp [hpn])]
    | some dep =>
      obtain ⟨hdepmem, hdepname⟩ := lookupDeployment_some hlk
      have huniq : ∀ d ∈ reg, d.name = n → d = dep := by
        intro d hd hdn
        exact name_unique hR hd hdepmem (by rw [hdn, hdepname])
      by_cases hfb : (stopF dep.containerID || removeF dep.containerID) = true
      · have hstep : rollbackLoop stopF removeF (n :: rest) reg errs attempts =
            rollbackLoop stopF removeF rest reg (errs + 1) (attempts ++ [n]) := by
          by_cases hs : stopF dep.containerID = true
          · simp [rollbackLoop, hlk, rollbackDeployment, hs]
          · have hs' : stopF dep.containerID = false := by simpa using hs
            have hr : removeF dep.containerID = true := by
              simpa [hs'] using hfb
            simp [rollbackLoop, hlk, rollbackDeployment, hs', hr]
        rw [hstep, ih reg (errs + 1) (attempts ++ [n]) hN'.2 hR]
        simp only [Prod.mk.injEq]
        refine ⟨?_, ?_, ?_⟩
        · refine List.filter_congr ?_
          intro d hd
          by_cases hdn : d.name = n
          · have hde : d = dep := huniq d hd hdn
            subst hde
            have hb1 : (d.name == n) = true := by simpa using hdn
            rw [List.contains_cons, hb1]
            have hns : (!stopF d.containerID && !removeF d.containerID) = false := by
              rcases (by simpa using hfb :
                  stopF d.containerID = true ∨ removeF d.containerID = true) with h | h
              · simp [h]
              · simp [h]
            simp [hns]
          · have hb1 : (d.name == n) = false := by simpa using hdn
            rw [List.contains_cons, hb1]
            simp
        · have hupd : (reg.filter (fun d => (n :: rest).contains d.name &&
              (stopF d.containerID || removeF d.containerID))).length =
              (reg.filter (fun d => rest.contains d.name &&
                (stopF d.containerID || removeF d.containerID))).length + 1 := by
            refine length_filter_update (fun d => d.name) reg hR _ _ dep
              hdepmem ?_ ?_ ?_
            · rw [List.contains_cons, hdepname]
              simp [hfb]
            · rw [hdepname, hnrest]
              simp
            · intro y hy hyname
              have hyname' : y.name ≠ dep.name := hyname
              rw [hdepname] at hyname'
              have hb1 : (y.name == n) = false := by simpa using hyname'
              rw [List.contains_cons, hb1]
              simp
          rw [hupd]
          omega
        · have hpn : ((lookupDeployment reg n).isSome) = true := by
            rw [hlk]; rfl
          rw [List.filter_cons, if_pos (by simp [hpn])]
          simp
      · have hboth : stopF dep.containerID = false ∧
            removeF dep.containerID = false := by
          constructor
          · by_cases h : stopF dep.containerID = true
            · exact absurd (by simp [h]) hfb
            · simpa using h
          · by_cases h : removeF dep.containerID = true
            · exact absurd (by simp [h]) hfb
            · simpa using h
        have hstep : rollbackLoop stopF removeF (n :: rest) reg errs attempts =
            rollbackLoop stopF removeF rest
              (reg.filter (fun d => !(d.name == dep.name))) errs
              (attempts ++ [n]) := by
          simp [rollbackLoop, hlk, rollbackDeployment, hboth.1, hboth.2]
        have hR2 : (((reg.filter (fun d => !(d.name == dep.name))).map
            (fun d => d.name)).Nodup) :=
          List.Nodup.sublist
            (List.Sublist.map (fun d => d.name) (List.filter_sublist reg)) hR
        rw [hstep, ih _ errs (attempts ++ [n]) hN'.2 hR2]
        simp only [Prod.mk.injEq]
        refine ⟨?_, ?_, ?_⟩
        · rw [List.filter_filter]
          refine List.filter_congr ?_
          intro d hd
          by_cases hdn : d.name = n
          · have hde : d = dep := huniq d hd hdn
            subst hde
            have hb1 : (d.name == n) = true := by simpa using hdn
            have hb2 : (d.name == d.name) = true := by simp
            rw [List.contains_cons, hb1, hb2]
            simp [hboth.1, hboth.2]
          · have hb1 : (d.name == n) = false := by simpa using hdn
            have hb2 : (d.name == dep.name) = false := by
              rw [hdepname]
              simpa using hdn
            rw [List.contains_cons, hb1, hb2]
            simp
        · rw [List.filter_filter]
          refine congrArg (HAdd.hAdd errs) (congrArg List.length ?_)
          refine List.filter_congr ?_
          intro d hd
          by_cases hdn : d.name = n
          · have hde : d = dep := huniq d hd hdn
            subst hde
            simp [List.contains_cons, hboth.1, hboth.2]
          · have hb1 : (d.name == n) = false := by simpa using hdn
            have hb2 : (d.name == dep.name) = false := by
              rw [hdepname]
              simpa using hdn
            simp [List.contains_cons, hb1, hb2, hdn]
        · have hpn : ((lookupDeployment reg n).isSome) = true := by
            rw [hlk]; rfl
          have hlkeq : rest.filter (fun m =>
              (lookupDeployment (reg.filter (fun d => !(d.name == dep.name)))
                m).isSome) =
              rest.filter (fun m => (lookupDeployment reg m).isSome) := by
            refine List.filter_congr ?_
            intro m hm
            have hmn : m ≠ n := by
              intro hc
              subst hc
              exact (by simpa using hN'.1 : m ∉ rest) hm
            rw [lookupDeployment_filter]
            intro d _ hdm
            rw [hdm, hdepname]
            simpa using hmn
          rw [hlkeq, List.filter_cons, if_pos (by simp [hpn])]
          simp

/-- Closed form of `Rollback` under the well-formedness the deploy pipeline
guarantees (unit names unique within each group and across groups, registry
names unique): the final registry, the aggregate error and the attempted
names, all expressed over the initial registry. -/
theorem Rollback_spec (cfg : Config) (reg : List Deployment)
    (stopF removeF : String → Bool) (pc : Bool)
    (hDisj : ∀ m ∈ cfg.apps.map (fun a => a.name),
      m ∉ (reverseServices cfg.services).map (fun s => s.name))
    (hR : ((reg.map (fun d => d.name)).Nodup))
    (hA : ((cfg.apps.map (fun a => a.name)).Nodup))
    (hS : (((reverseServices cfg.services).map (fun s => s.name)).Nodup)) :
    Rollback cfg reg stopF removeF pc =
      (if (reg.filter (fun d =>
            ((cfg.apps.map (fun a => a.name)).contains d.name ||
              ((reverseServices cfg.services).map (fun s => s.name)).contains
                d.name) &&
            (stopF d.containerID || removeF d.containerID))).length > 0 then
          Except.error ("rollback completed with " ++
            toString (reg.filter (fun d =>
              ((cfg.apps.map (fun a => a.name)).contains d.name ||
                ((reverseServices cfg.services).map
                  (fun s => s.name)).contains d.name) &&
              (stopF d.containerID || removeF d.containerID))).length ++
            " errors")
        else Except.ok (),
       reg.filter (fun d =>
         !((((cfg.apps.map (fun a => a.name)).contains d.name ||
              ((reverseServices cfg.services).map (fun s => s.name)).contains
                d.name)) &&
            (!stopF d.containerID && !removeF d.containerID))),
       (cfg.apps.map (fun a => a.name)).filter
           (fun n => (lookupDeployment reg n).isSome) ++
         ((reverseServices cfg.services).map (fun s => s.name)).filter
           (fun n => (lookupDeployment reg n).isSome)) := by
  have hsub : ((reg.filter (fun d =>
      !((cfg.apps.map (fun a => a.name)).contains d.name &&
        (!stopF d.containerID && !removeF d.containerID)))).map
      (fun d => d.name)).Nodup :=
    List.Nodup.sublist
      (List.Sublist.map (fun d => d.name) (List.filter_sublist reg)) hR
  have h1 := rollbackLoop_spec stopF removeF (cfg.apps.map (fun a => a.name))
    reg 0 [] hA hR
  have h2 := rollbackLoop_spec stopF removeF
    ((reverseServices cfg.services).map (fun s => s.name))
    (reg.filter (fun d =>
      !((cfg.apps.map (fun a => a.name)).contains d.name &&
        (!stopF d.containerID && !removeF d.containerID))))
    ((reg.filter (fun d => (cfg.apps.map (fun a => a.name)).contains d.name &&
      (stopF d.containerID || removeF d.containerID))).length)
    ((cfg.apps.map (fun a => a.name)).filter
      (fun n => (lookupDeployment reg n).isSome))
    hS hsub
  simp only [Nat.zero_add, List.nil_append] at h1
  unfold Rollback
  rw [h1]
  simp only [h2]
  have hA2 : ((reg.filter (fun d =>
      !((cfg.apps.map (fun a => a.name)).contains d.name &&
        (!stopF d.containerID && !removeF d.containerID)))).filter
      (fun d => ((reverseServices cfg.services).map
        (fun s => s.name)).contains d.name &&
        (stopF d.containerID || removeF d.containerID))) =
      reg.filter (fun d => ((reverseServices cfg.services).map
        (fun s => s.name)).contains d.name &&
        (stopF d.containerID || removeF d.containerID)) := by
    rw [List.filter_filter]
    refine List.filter_congr ?_
    intro d hd
    by_cases hsc : (((reverseServices cfg.services).map
        (fun s => s.name)).contains d.name) = true
    · have hmem : d.name ∈ (reverseServices cfg.services).map
          (fun s => s.name) := by simpa using hsc
      have hnapp : d.name ∉ cfg.apps.map (fun a => a.name) := fun hm =>
        hDisj d.name hm hmem
      have hac : ((cfg.apps.map (fun a => a.name)).contains d.name) = false :=
        by simpa using hnapp
      rw [hsc, hac]
      cases stopF d.containerID <;> cases removeF d.containerID <;> rfl
    · have hsc' : (((reverseServices cfg.services).map
          (fun s => s.name)).contains d.name) = false := by simpa using hsc
      rw [hsc']
      cases (cfg.apps.map (fun a => a.name)).contains d.name <;>
        cases stopF d.containerID <;> cases removeF d.containerID <;> rfl
  have hdisj2 : ∀ x ∈ reg,
      ¬(((cfg.apps.map (fun a => a.name)).contains x.name &&
          (stopF x.containerID || removeF x.containerID)) = true ∧
        (((reverseServices cfg.services).map (fun s => s.name)).contains
            x.name &&
          (stopF x.containerID || removeF x.containerID)) = true) := by
    intro x _ hx
    have hxa : x.name ∈ cfg.apps.map (fun a => a.name) := by
      have h1x := hx.1
      rw [Bool.and_eq_true] at h1x
      simpa using h1x.1
    have hxs : x.name ∈ (reverseServices cfg.services).map
        (fun s => s.name) := by
      have h2x := hx.2
      rw [Bool.and_eq_true] at h2x
      simpa using h2x.1
    exact hDisj x.name hxa hxs
  have hsum := length_filter_disjoint_union reg
    (fun d => (cfg.apps.map (fun a => a.name)).contains d.name &&
      (stopF d.containerID || removeF d.containerID))
    (fun d => ((reverseServices cfg.services).map
      (fun s => s.name)).contains d.name &&
      (stopF d.containerID || removeF d.containerID)) hdisj2
  have hmerge : reg.filter (fun d =>
      ((cfg.apps.map (fun a => a.name)).contains d.name &&
        (stopF d.containerID || removeF d.containerID)) ||
      (((reverseServices cfg.services).map (fun s => s.name)).contains
          d.name &&
        (stopF d.containerID || removeF d.containerID))) =
      reg.filter (fun d =>
        ((cfg.apps.map (fun a => a.name)).contains d.name ||
          ((reverseServices cfg.services).map (fun s => s.name)).contains
            d.name) &&
        (stopF d.containerID || removeF d.containerID)) := by
    refine List.filter_congr ?_
    intro d _
    cases (cfg.apps.map (fun a => a.name)).contains d.name <;>
      cases ((reverseServices cfg.services).map
        (fun s => s.name)).contains d.name <;>
      cases stopF d.containerID <;> cases removeF d.containerID <;> rfl
  have hcount : (reg.filter (fun d =>
      (cfg.apps.map (fun a => a.name)).contains d.name &&
        (stopF d.containerID || removeF d.containerID))).length +
      ((reg.filter (fun d =>
        !((cfg.apps.map (fun a => a.name)).contains d.name &&
          (!stopF d.containerID && !removeF d.containerID)))).filter
        (fun d => ((reverseServices cfg.services).map
          (fun s => s.name)).contains d.name &&
          (stopF d.containerID || removeF d.containerID))).length =
      (reg.filter (fun d =>
        ((cfg.apps.map (fun a => a.name)).contains d.name ||
          ((reverseServices cfg.services).map (fun s => s.name)).contains
            d.name) &&
        (stopF d.containerID || removeF d.containerID))).length := by
    rw [hA2]
    exact hsum.symm.trans (congrArg List.length hmerge)
  rw [hcount]
  simp only [Prod.mk.injEq]
  refine ⟨trivial, ?_, ?_⟩
  · rw [List.filter_filter]
    refine List.filter_congr ?_
    intro d _
    cases (cfg.apps.map (fun a => a.name)).contains d.name <;>
      cases ((reverseServices cfg.services).map
        (fun s => s.name)).contains d.name <;>
      cases stopF d.containerID <;> cases removeF d.containerID <;> rfl
  · congr 1
    refine List.filter_congr ?_
    intro m hm
    have hnapp : m ∉ cfg.apps.map (fun a => a.name) := fun h =>
      hDisj m h hm
    rw [lookupDeployment_filter]
    intro d _ hdm
    have hac : ((cfg.apps.map (fun a => a.name)).contains d.name) = false := by
      rw [hdm]
      simpa using hnapp
    rw [hac]
    rfl

/-- C7: `Rollback` never aborts early.  For every configuration and registry
well-formed in the sense the deploy pipeline guarantees (unit names unique
within each group and across the two groups, registry names unique, every
record named by a configured unit): a name is attempted iff some registry
record bears it, each registered unit is attempted exactly once (the attempt
list is duplicate-free), and the result is success iff zero teardown
failures occurred, otherwise the aggregate error naming the failure count. -/
theorem c7_rollback_attempts_all_and_reports_aggregate
    (cfg : Config) (reg : List Deployment)
    (stopF removeF : String → Bool) (pc : Bool)
    (hDisj : ∀ m ∈ cfg.apps.map (fun a => a.name),
      m ∉ cfg.services.map (fun s => s.name))
    (hR : ((reg.map (fun d => d.name)).Nodup))
    (hA : ((cfg.apps.map (fun a => a.name)).Nodup))
    (hS : ((cfg.services.map (fun s => s.name)).Nodup))
    (hCov : ∀ d ∈ reg, d.name ∈ cfg.apps.map (fun a => a.name) ∨
      d.name ∈ cfg.services.map (fun s => s.name)) :
    (∀ m, m ∈ (Rollback cfg reg stopF removeF pc).2.2 ↔
      ∃ d ∈ reg, d.name = m) ∧
    ((Rollback cfg reg stopF removeF pc).2.2.Nodup) ∧
    (Rollback cfg reg stopF removeF pc).1 =
      (if (reg.filter (fun d =>
            stopF d.containerID || removeF d.containerID)).length > 0 then
        Except.error ("rollback completed with " ++
          toString (reg.filter (fun d =>
            stopF d.containerID || removeF d.containerID)).length ++
          " errors")
      else Except.ok ()) := by
  have hDisj' : ∀ m ∈ cfg.apps.map (fun a => a.name),
      m ∉ (reverseServices cfg.services).map (fun s => s.name) := by
    intro m hm hmem
    exact hDisj m hm (by simpa [reverseServices] using hmem)
  have hS' : (((reverseServices cfg.services).map (fun s => s.name)).Nodup) :=
    by simpa [reverseServices] using hS
  have hCov' : ∀ d ∈ reg, d.name ∈ cfg.apps.map (fun a => a.name) ∨
      d.name ∈ (reverseServices cfg.services).map (fun s => s.name) := by
    intro d hd
    rcases hCov d hd with h | h
    · exact Or.inl h
    · exact Or.inr (by simpa [reverseServices] using h)
  have hspec := Rollback_spec cfg reg stopF removeF pc hDisj' hR hA hS'
  refine ⟨?_, ?_, ?_⟩
  · intro m
    rw [hspec]
    show m ∈ _ ++ _ ↔ _
    simp only [List.mem_append, List.mem_filter]
    constructor
    · rintro (⟨_, hsome⟩ | ⟨_, hsome⟩) <;>
      · cases hlk : lookupDeployment reg m with
        | none => rw [hlk] at hsome; exact absurd hsome (by simp)
        | some dep =>
            exact ⟨dep, (lookupDeployment_some hlk).1,
              (lookupDeployment_some hlk).2⟩
    · rintro ⟨d, hd, rfl⟩
      have hsome : ((lookupDeployment reg d.name).isSome) = true := by
        cases hlk : lookupDeployment reg d.name with
        | none => exact absurd rfl (lookupDeployment_none hlk d hd)
        | some _ => rfl
      rcases hCov' d hd with hmem | hmem
      · exact Or.inl ⟨hmem, hsome⟩
      · exact Or.inr ⟨hmem, hsome⟩
  · rw [hspec]
    show List.Nodup (_ ++ _)
    rw [List.nodup_append]
    refine ⟨hA.filter _, hS'.filter _, ?_⟩
    intro m hm1 hm2
    exact hDisj' m (List.mem_of_mem_filter hm1) (List.mem_of_mem_filter hm2)
  · rw [hspec]
    show (if _ then _ else _) = _
    have hfil : reg.filter (fun d =>
        ((cfg.apps.map (fun a => a.name)).contains d.name ||
          ((reverseServices cfg.services).map (fun s => s.name)).contains
            d.name) &&
        (stopF d.containerID || removeF d.containerID)) =
        reg.filter (fun d =>
          stopF d.containerID || removeF d.containerID) := by
      refine List.filter_congr ?_
      intro d hd
      have hor : (((cfg.apps.map (fun a => a.name)).contains d.name ||
          ((reverseServices cfg.services).map (fun s => s.name)).contains
            d.name)) = true := by
        rcases hCov' d hd with hmem | hmem
        · have hc : ((cfg.apps.map (fun a => a.name)).contains d.name) =
              true := by simpa using hmem
          rw [hc]
          rfl
        · have hc : (((reverseServices cfg.services).map
              (fun s => s.name)).contains d.name) = true := by
            simpa using hmem
          rw [hc]
          cases (cfg.apps.map (fun a => a.name)).contains d.name <;> rfl
      rw [hor]
      rfl
    rw [hfil]

/-- Witness for C7 at a concrete input: one app and one service registered,
the service's stop failing, the app's teardown succeeding — the aggregate
error reports one failure. -/
theorem c7_witness :
    (Rollback ⟨"1", "d", default, default,
        [⟨"S7", "img", [], [], [], [], default, ""⟩],
        [⟨"A7", "img", "", "", [], [], [], [], default, ""⟩], 0, ""⟩
      [⟨"A7", "cidA7", "img", 0, "app", [], default, [], [], [], ""⟩,
       ⟨"S7", "cidS7", "img", 0, "service", [], default, [], [], [], ""⟩]
      (fun c => c == "cidS7") (fun _ => false) false).1 =
      Except.error "rollback completed with 1 errors" := by
  have h := c7_rollback_attempts_all_and_reports_aggregate
    ⟨"1", "d", default, default,
      [⟨"S7", "img", [], [], [], [], default, ""⟩],
      [⟨"A7", "img", "", "", [], [], [], [], default, ""⟩], 0, ""⟩
    [⟨"A7", "cidA7", "img", 0, "app", [], default, [], [], [], ""⟩,
     ⟨"S7", "cidS7", "img", 0, "service", [], default, [], [], [], ""⟩]
    (fun c => c == "cidS7") (fun _ => false) false
    (by decide) (by decide) (by decide) (by decide) (by decide)
  rw [h.2.2]
  rfl

/-- C2 (amended): what `Rollback` actually does with ordering.  Every
registered app is attempted before any registered service; but within the
groups the order is the *declared* configuration order for apps and the
*reverse declared* configuration order for services — not the reverse of
either group's resolved (topological) deployment order. -/
theorem c2_teardown_declared_apps_then_reverse_declared_services
    (cfg : Config) (reg : List Deployment)
    (stopF removeF : String → Bool) (pc : Bool)
    (hDisj : ∀ m ∈ cfg.apps.map (fun a => a.name),
      m ∉ cfg.services.map (fun s => s.name))
    (hR : ((reg.map (fun d => d.name)).Nodup))
    (hA : ((cfg.apps.map (fun a => a.name)).Nodup))
    (hS : ((cfg.services.map (fun s => s.name)).Nodup)) :
    (Rollback cfg reg stopF removeF pc).2.2 =
      (cfg.apps.map (fun a => a.name)).filter
        (fun n => (lookupDeployment reg n).isSome) ++
      ((cfg.services.map (fun s => s.name)).reverse).filter
        (fun n => (lookupDeployment reg n).isSome) := by
  have hDisj' : ∀ m ∈ cfg.apps.map (fun a => a.name),
      m ∉ (reverseServices cfg.services).map (fun s => s.name) := by
    intro m hm hmem
    exact hDisj m hm (by simpa [reverseServices] using hmem)
  have hS' : (((reverseServices cfg.services).map (fun s => s.name)).Nodup) :=
    by simpa [reverseServices] using hS
  rw [Rollback_spec cfg reg stopF removeF pc hDisj' hR hA hS']
  show _ ++ _ = _
  congr 1
  rw [show reverseServices cfg.services = cfg.services.reverse from rfl,
    List.map_reverse]

/-- C2 counterexample: services `S1` (depending on `S2`) and `S2`, declared
in that order, both registered.  `Rollback` attempts the services in reverse
*declared* order `[S2, S1]`; the reverse of that attempt order is not a
topological deployment order of the group (S1's dependency S2 would come
after it), so the attempt order is not the reverse of the group's deployment
order, and the dependency `S2` is in fact torn down before its dependent
`S1`. -/
theorem c2_counterexample :
    (Rollback ⟨"1", "d", default, default,
        [⟨"S1", "img", [], [], [], ["S2"], default, ""⟩,
         ⟨"S2", "img", [], [], [], [], default, ""⟩],
        [], 0, ""⟩
      [⟨"S1", "cidS1", "img", 0, "service", ["S2"], default, [], [], [], ""⟩,
       ⟨"S2", "cidS2", "img", 0, "service", [], default, [], [], [], ""⟩]
      (fun _ => false) (fun _ => false) false).2.2 = ["S2", "S1"] ∧
    (([⟨"S1", "img", [], [], [], ["S2"], default, ""⟩,
       ⟨"S2", "img", [], [], [], [], default, ""⟩] : List Service).map
        (fun s => (s.name, s.dependsOn))) = [("S1", ["S2"]), ("S2", [])] ∧
    ¬ GoodOrder [("S1", ["S2"]), ("S2", [])] (List.reverse ["S2", "S1"]) := by
  refine ⟨rfl, rfl, ?_⟩
  show ¬ ∀ x ∈ List.reverse ["S2", "S1"],
    ∀ d ∈ lookupDeps [("S1", ["S2"]), ("S2", [])] x,
      d ∈ List.reverse ["S2", "S1"] ∧
        (List.reverse ["S2", "S1"]).indexOf d <
          (List.reverse ["S2", "S1"]).indexOf x
  decide

/-- Witness for C2 at a concrete input: one app and two services, all
registered — the attempts are the app first, then the services in reverse
declared order. -/
theorem c2_witness :
    (Rollback ⟨"1", "d", default, default,
        [⟨"Sx", "img", [], [], [], [], default, ""⟩,
         ⟨"Sy", "img", [], [], [], [], default, ""⟩],
        [⟨"Aw", "img", "", "", [], [], [], [], default, ""⟩], 0, ""⟩
      [⟨"Aw", "cidA", "img", 0, "app", [], default, [], [], [], ""⟩,
       ⟨"Sx", "cidX", "img", 0, "service", [], default, [], [], [], ""⟩,
       ⟨"Sy", "cidY", "img", 0, "service", [], default, [], [], [], ""⟩]
      (fun _ => false) (fun _ => false) false).2.2 = ["Aw", "Sy", "Sx"] := by
  have h := c2_teardown_declared_apps_then_reverse_declared_services
    ⟨"1", "d", default, default,
      [⟨"Sx", "img", [], [], [], [], default, ""⟩,
       ⟨"Sy", "img", [], [], [], [], default, ""⟩],
      [⟨"Aw", "img", "", "", [], [], [], [], default, ""⟩], 0, ""⟩
    [⟨"Aw", "cidA", "img", 0, "app", [], default, [], [], [], ""⟩,
     ⟨"Sx", "cidX", "img", 0, "service", [], default, [], [], [], ""⟩,
     ⟨"Sy", "cidY", "img", 0, "service", [], default, [], [], [], ""⟩]
    (fun _ => false) (fun _ => false) false
    (by decide) (by decide) (by decide) (by decide)
  rw [h]
  rfl

/-- C4 (amended): a unit deploy that reaches the health gate inserts its
registry record *before* the gate runs, so a gate failure surfaces with the
failed unit still registered; a subsequent `Rollback` empties the registry
when every stop and remove succeeds — but a record whose stop *or* remove
fails is kept. -/
theorem c4_registered_before_gate_and_rollback_empties_only_on_success
    (cfg : Config) (reg : List Deployment)
    (stopF removeF : String → Bool) (pc : Bool)
    (hDisj : ∀ m ∈ cfg.apps.map (fun a => a.name),
      m ∉ cfg.services.map (fun s => s.name))
    (hR : ((reg.map (fun d => d.name)).Nodup))
    (hA : ((cfg.apps.map (fun a => a.name)).Nodup))
    (hS : ((cfg.services.map (fun s => s.name)).Nodup))
    (hCov : ∀ d ∈ reg, d.name ∈ cfg.apps.map (fun a => a.name) ∨
      d.name ∈ cfg.services.map (fun s => s.name)) :
    (∀ (scanE : Except String Unit) (cid e : String) (app : App)
        (reg2 : List Deployment) (now : Nat),
        app.healthCheck.checkType ≠ "" →
        deployApp none scanE (Except.ok cid) none (some e) app reg2 now =
          (reg2 ++ [⟨app.name, cid, app.image, now, "app", app.dependsOn,
              app.healthCheck, [], app.environment, app.ports,
              app.restartPolicy⟩],
            Except.error ("health check failed: " ++ e),
            [DaEv.pull, DaEv.scan, DaEv.create, DaEv.start, DaEv.register,
              DaEv.healthGate])) ∧
    ((∀ c, stopF c = false) → (∀ c, removeF c = false) →
      (Rollback cfg reg stopF removeF pc).2.1 = []) ∧
    (∀ d ∈ reg, stopF d.containerID = true ∨ removeF d.containerID = true →
      d ∈ (Rollback cfg reg stopF removeF pc).2.1) := by
  have hDisj' : ∀ m ∈ cfg.apps.map (fun a => a.name),
      m ∉ (reverseServices cfg.services).map (fun s => s.name) := by
    intro m hm hmem
    exact hDisj m hm (by simpa [reverseServices] using hmem)
  have hS' : (((reverseServices cfg.services).map (fun s => s.name)).Nodup) :=
    by simpa [reverseServices] using hS
  have hCov' : ∀ d ∈ reg, d.name ∈ cfg.apps.map (fun a => a.name) ∨
      d.name ∈ (reverseServices cfg.services).map (fun s => s.name) := by
    intro d hd
    rcases hCov d hd with h | h
    · exact Or.inl h
    · exact Or.inr (by simpa [reverseServices] using h)
  have hspec := Rollback_spec cfg reg stopF removeF pc hDisj' hR hA hS'
  refine ⟨?_, ?_, ?_⟩
  · intro scanE cid e app reg2 now hct
    simp [deployApp, hct]
  · intro hstop hrem
    rw [hspec]
    show List.filter _ reg = []
    refine List.filter_eq_nil_iff.mpr ?_
    intro d hd
    have hor : (((cfg.apps.map (fun a => a.name)).contains d.name ||
        ((reverseServices cfg.services).map (fun s => s.name)).contains
          d.name)) = true := by
      rcases hCov' d hd with hmem | hmem
      · have hc : ((cfg.apps.map (fun a => a.name)).contains d.name) =
            true := by simpa using hmem
        rw [hc]
        rfl
      · have hc : (((reverseServices cfg.services).map
            (fun s => s.name)).contains d.name) = true := by
          simpa using hmem
        rw [hc]
        cases (cfg.apps.map (fun a => a.name)).contains d.name <;> rfl
    show ¬ ((!(((cfg.apps.map (fun a => a.name)).contains d.name ||
        ((reverseServices cfg.services).map (fun s => s.name)).contains
          d.name) &&
        (!stopF d.containerID && !removeF d.containerID))) = true)
    rw [hor, hstop d.containerID, hrem d.containerID]
    decide
  · intro d hd hsd
    rw [hspec]
    show d ∈ List.filter _ reg
    refine List.mem_filter.mpr ⟨hd, ?_⟩
    show (!(((cfg.apps.map (fun a => a.name)).contains d.name ||
        ((reverseServices cfg.services).map (fun s => s.name)).contains
          d.name) &&
        (!stopF d.containerID && !removeF d.containerID))) = true
    rcases hsd with hsd | hrd
    · rw [hsd]
      cases ((cfg.apps.map (fun a => a.name)).contains d.name) <;>
        cases (((reverseServices cfg.services).map
          (fun s => s.name)).contains d.name) <;>
        cases removeF d.containerID <;> rfl
    · rw [hrd]
      cases ((cfg.apps.map (fun a => a.name)).contains d.name) <;>
        cases (((reverseServices cfg.services).map
          (fun s => s.name)).contains d.name) <;>
        cases stopF d.containerID <;> rfl

/-- C4 counterexample: a single registered app.  When its container stop
fails, and likewise when its stop succeeds but its remove fails
(`rollbackDeployment`'s second early return), `Rollback` keeps the record
(the registry is *not* empty afterward) and reports the aggregate error —
refuting the claim's "leaving the registry empty afterward, even when
individual Stop or Remove container operations fail". -/
theorem c4_counterexample :
    ((Rollback ⟨"1", "d", default, default, [],
        [⟨"A1", "img", "", "", [], [], [], [], default, ""⟩], 0, ""⟩
      [⟨"A1", "cidA1", "img", 0, "app", [], default, [], [], [], ""⟩]
      (fun _ => true) (fun _ => false) false).2.1 =
      [⟨"A1", "cidA1", "img", 0, "app", [], default, [], [], [], ""⟩] ∧
    (Rollback ⟨"1", "d", default, default, [],
        [⟨"A1", "img", "", "", [], [], [], [], default, ""⟩], 0, ""⟩
      [⟨"A1", "cidA1", "img", 0, "app", [], default, [], [], [], ""⟩]
      (fun _ => true) (fun _ => false) false).1 =
      Except.error "rollback completed with 1 errors") ∧
    ((Rollback ⟨"1", "d", default, default, [],
        [⟨"A1", "img", "", "", [], [], [], [], default, ""⟩], 0, ""⟩
      [⟨"A1", "cidA1", "img", 0, "app", [], default, [], [], [], ""⟩]
      (fun _ => false) (fun _ => true) false).2.1 =
      [⟨"A1", "cidA1", "img", 0, "app", [], default, [], [], [], ""⟩] ∧
    (Rollback ⟨"1", "d", default, default, [],
        [⟨"A1", "img", "", "", [], [], [], [], default, ""⟩], 0, ""⟩
      [⟨"A1", "cidA1", "img", 0, "app", [], default, [], [], [], ""⟩]
      (fun _ => false) (fun _ => true) false).1 =
      Except.error "rollback completed with 1 errors") :=
  ⟨⟨rfl, rfl⟩, ⟨rfl, rfl⟩⟩

/-- Witness for C4 at a concrete input: a health-gated app deploy whose gate
fails returns the gate error with the record registered (register before
healthGate in the trace); a `Rollback` whose stops and removes all succeed
leaves the registry empty; and a `Rollback` in which one record's *remove*
fails keeps that record. -/
theorem c4_witness :
    deployApp none (Except.ok ()) (Except.ok "cid0") none (some "probe")
        ⟨"A0", "img", "", "", [], [], [], ["db"],
          ⟨"http", "/h", 80, 5, 3, 3, 0⟩, ""⟩ [] 5 =
      ([⟨"A0", "cid0", "img", 5, "app", ["db"],
          ⟨"http", "/h", 80, 5, 3, 3, 0⟩, [], [], [], ""⟩],
        Except.error "health check failed: probe",
        [DaEv.pull, DaEv.scan, DaEv.create, DaEv.start, DaEv.register,
          DaEv.healthGate]) ∧
    (Rollback ⟨"1", "d", default, default,
        [⟨"S0", "img", [], [], [], [], default, ""⟩],
        [⟨"A0", "img", "", "", [], [], [], [], default, ""⟩], 0, ""⟩
      [⟨"A0", "cidA0", "img", 0, "app", [], default, [], [], [], ""⟩,
       ⟨"S0", "cidS0", "img", 0, "service", [], default, [], [], [], ""⟩]
      (fun _ => false) (fun _ => false) false).2.1 = [] ∧
    (⟨"S0", "cidS0", "img", 0, "service", [], default, [], [], [], ""⟩ :
        Deployment) ∈
      (Rollback ⟨"1", "d", default, default,
          [⟨"S0", "img", [], [], [], [], default, ""⟩],
          [⟨"A0", "img", "", "", [], [], [], [], default, ""⟩], 0, ""⟩
        [⟨"A0", "cidA0", "img", 0, "app", [], default, [], [], [], ""⟩,
         ⟨"S0", "cidS0", "img", 0, "service", [], default, [], [], [], ""⟩]
        (fun _ => false) (fun c => c == "cidS0") false).2.1 := by
  have h := c4_registered_before_gate_and_rollback_empties_only_on_success
    ⟨"1", "d", default, default,
      [⟨"S0", "img", [], [], [], [], default, ""⟩],
      [⟨"A0", "img", "", "", [], [], [], [], default, ""⟩], 0, ""⟩
    [⟨"A0", "cidA0", "img", 0, "app", [], default, [], [], [], ""⟩,
     ⟨"S0", "cidS0", "img", 0, "service", [], default, [], [], [], ""⟩]
    (fun _ => false) (fun _ => false) false
    (by decide) (by decide) (by decide) (by decide) (by decide)
  have h' := c4_registered_before_gate_and_rollback_empties_only_on_success
    ⟨"1", "d", default, default,
      [⟨"S0", "img", [], [], [], [], default, ""⟩],
      [⟨"A0", "img", "", "", [], [], [], [], default, ""⟩], 0, ""⟩
    [⟨"A0", "cidA0", "img", 0, "app", [], default, [], [], [], ""⟩,
     ⟨"S0", "cidS0", "img", 0, "service", [], default, [], [], [], ""⟩]
    (fun _ => false) (fun c => c == "cidS0") false
    (by decide) (by decide) (by decide) (by decide) (by decide)
  refine ⟨?_, h.2.1 (fun _ => rfl) (fun _ => rfl), ?_⟩
  · exact h.1 (Except.ok ()) "cid0" "probe"
      ⟨"A0", "img", "", "", [], [], [], ["db"],
        ⟨"http", "/h", 80, 5, 3, 3, 0⟩, ""⟩ [] 5 (by decide)
  · exact h'.2.2
      ⟨"S0", "cidS0", "img", 0, "service", [], default, [], [], [], ""⟩
      (by decide) (Or.inr (by decide))

end Shipyard
